import Mathlib

/-!
Verification of the quiffen QIF library against its specification.

The development shallowly embeds the Python sources:
* `quiffen/core/transaction.py` (pydantic model): split validation and
  `add_split` (split sum invariants),
* `quiffen/core/category.py` (pydantic model): the category tree with
  hierarchy strings, `add_child` / `remove_child` / `merge`,
  `traverse_down`, `create_categories_from_hierarchy`,
  `add_categories_to_container`,
* `quiffen/core/base.py`: the custom-field registry,
* `quiffen/utils.py`: `parse_date` with its ordered pattern lists,
* `quiffen/core/qif.py` together with the modules it imports
  (`categories_classes.py`, `accounts.py`, `transactions.py`,
  `security.py`): `Qif.parse` and `Qif.to_qif`.

Python `Decimal` values are modelled as exact rationals represented by an
integer numerator and positive integer denominator (`PyDec`), with
unnormalised cross-multiplication arithmetic so that every operation
reduces inside the kernel.  Where the source routes a value through binary
floating point (`Decimal(round(float(s), 2))`) the embedding computes the
exact value of the nearest IEEE-754 double, so floating point is modelled
exactly rather than approximately.  Python `datetime` dates are modelled
as year/month/day triples; `datetime.strptime` is modelled for exactly the
directives appearing in the source's patterns (`%d %m %y %Y %b %B` and
literal characters) following CPython's `_strptime` regexes, including
their alternative-order (backtracking) semantics and the day-of-month
validation performed by the `datetime` constructor.  Python exceptions are
modelled with `Option`/`Except`.  String manipulation is implemented over
`List Char` (Python `str` methods on ASCII data are per-character), since
the corresponding core `String` primitives do not reduce in the kernel.
-/

namespace Quiffen

instance {ε α : Type} [DecidableEq ε] [DecidableEq α] : DecidableEq (Except ε α) := by
  intro a b
  cases a <;> cases b
  case error.error e f => exact decidable_of_iff (e = f) (by simp)
  case ok.ok x y => exact decidable_of_iff (x = y) (by simp)
  all_goals exact isFalse (by simp)

/-! ## Python string helpers over `List Char` -/

/-- Python `str.split(sep)` for a non-empty separator (used with
separators `"\n"`, `"^\n"`, `":"`, `" "`, `"/"`): non-overlapping
left-to-right splitting, keeping empty parts. -/
def splitGo (sep : List Char) : ℕ → List Char → List Char → List (List Char)
  | _, [], acc => [acc.reverse]
  | 0, s, acc => [acc.reverse ++ s]
  | fuel + 1, c :: cs, acc =>
    if !sep.isEmpty && sep.isPrefixOf (c :: cs) then
      acc.reverse :: splitGo sep fuel ((c :: cs).drop sep.length) []
    else
      splitGo sep fuel cs (c :: acc)

def splitOnL (sep : List Char) (s : List Char) : List (List Char) :=
  splitGo sep s.length s []

def pySplit (s sep : String) : List String :=
  (splitOnL sep.data s.data).map String.mk

/-- Python `str.join`. -/
def pyJoin (sep : String) : List String → String
  | [] => ""
  | [x] => x
  | x :: xs => x ++ sep ++ pyJoin sep xs

/-- Python `sub in s` substring containment. -/
def listContainsSub (sub s : List Char) : Bool :=
  match s with
  | [] => sub.isEmpty
  | _ :: cs => sub.isPrefixOf s || listContainsSub sub cs

def pyContains (s sub : String) : Bool := listContainsSub sub.data s.data

/-- ASCII lower-casing, per character (the QIF headers involved are
ASCII). -/
def lowerChar (c : Char) : Char :=
  if 'A' ≤ c ∧ c ≤ 'Z' then Char.ofNat (c.toNat + 32) else c

def pyLower (s : String) : String := String.mk (s.data.map lowerChar)

/-- Python `str.replace(old, new)` for single characters. -/
def pyReplaceChar (old new : Char) (s : String) : String :=
  String.mk (s.data.map (fun c => if c = old then new else c))

/-- Python `str.replace(old, '')` — deletion of every occurrence of a
single character. -/
def pyDeleteChar (old : Char) (s : String) : String :=
  String.mk (s.data.filter (fun c => c ≠ old))

def isSpaceChar (c : Char) : Bool :=
  c = ' ' || c = '\t' || c = '\n' || c = '\r' || c = '\x0b' || c = '\x0c'

/-- Python `str.strip()` (no argument: strips whitespace). -/
def pyStrip (s : String) : String :=
  String.mk (((s.data.dropWhile isSpaceChar).reverse.dropWhile isSpaceChar).reverse)

/-- Python `str.strip(ch)` for a single stripped character. -/
def pyStripChar (ch : Char) (s : String) : String :=
  String.mk (((s.data.dropWhile (· = ch)).reverse.dropWhile (· = ch)).reverse)

def pyStartsWith (s pre : String) : Bool := pre.data.isPrefixOf s.data

/-- Python `s[0]` — `none` on the empty string (where Python raises
`IndexError`). -/
def pyHead (s : String) : Option Char := s.data.head?

/-- Python `s[1:]`. -/
def pyTail (s : String) : String := String.mk (s.data.drop 1)

/-- Python `s[1:-1]`. -/
def pyTailDropLast (s : String) : String := String.mk ((s.data.drop 1).dropLast)

def digitVal (c : Char) : Option ℕ :=
  if '0' ≤ c ∧ c ≤ '9' then some (c.toNat - '0'.toNat) else none

def digitsToNat : List Char → Option ℕ
  | [] => none
  | cs => cs.foldl (fun acc c => do (← acc) * 10 + (← digitVal c)) (some 0)

/-- Python `int(s)`: optional sign followed by digits (whitespace and
underscores are not produced by the call sites). -/
def pyInt (s : String) : Option ℤ :=
  match s.data with
  | '-' :: cs => (digitsToNat cs).map (fun n => -(n : ℤ))
  | '+' :: cs => (digitsToNat cs).map (fun n => (n : ℤ))
  | cs => (digitsToNat cs).map (fun n => (n : ℤ))

/-! ## Exact decimals (`PyDec`)

A Python `Decimal`/`float` value modelled as `num / den` with `den`
positive by construction.  Comparisons and equality are value-level
(cross multiplication), matching Python's exact `Decimal` comparison
semantics (including `Decimal` against `float`, which Python compares
exactly). -/

structure PyDec where
  num : ℤ
  den : ℕ
  deriving Repr, DecidableEq

def PyDec.ofInt (n : ℤ) : PyDec := ⟨n, 1⟩

/-- The value `n / 10 ^ k`, i.e. the exact value of a decimal literal
with `k` fractional digits. -/
def PyDec.scaled (n : ℤ) (k : ℕ) : PyDec := ⟨n, 10 ^ k⟩

def PyDec.add (a b : PyDec) : PyDec :=
  ⟨a.num * b.den + b.num * a.den, a.den * b.den⟩

def PyDec.neg (a : PyDec) : PyDec := ⟨-a.num, a.den⟩

def PyDec.sub (a b : PyDec) : PyDec := a.add b.neg

def PyDec.abs (a : PyDec) : PyDec := ⟨|a.num|, a.den⟩

def PyDec.mul (a b : PyDec) : PyDec := ⟨a.num * b.num, a.den * b.den⟩

/-- Exact division (the guard at the only division call site rules out a
zero divisor; a zero divisor yields the junk value 0 here where Python
would raise). -/
def PyDec.div (a b : PyDec) : PyDec :=
  if b.num = 0 then ⟨0, 1⟩
  else ⟨a.num * b.den * Int.sign b.num, a.den * b.num.natAbs⟩

def PyDec.lt (a b : PyDec) : Bool := a.num * (b.den : ℤ) < b.num * (a.den : ℤ)

def PyDec.gt (a b : PyDec) : Bool := PyDec.lt b a

/-- Value-level equality (Python `==` on `Decimal`). -/
def PyDec.eqv (a b : PyDec) : Bool := a.num * (b.den : ℤ) == b.num * (a.den : ℤ)

def PyDec.isZero (a : PyDec) : Bool := a.num == 0

/-- Python `sum(...)` over decimals: starts from the integer `0` and adds
left to right. -/
def PyDec.sumL (l : List PyDec) : PyDec := l.foldl PyDec.add (PyDec.ofInt 0)

/-- Exact value of the IEEE-754 double produced by the Python literal
`0.01`, the tolerance used by the validators in `transaction.py`
(`Decimal`-to-`float` comparisons in Python are exact). -/
def tol001 : PyDec := ⟨5764607523034235, 576460752303423488⟩

/-! ## Split / Transaction (quiffen/core/transaction.py, pydantic model)

Only the fields participating in the split-sum logic are carried
(`amount` and `percent` on `Split`; `amount` and `splits` on
`Transaction`).  The remaining fields (dates, memo, payee, category, ...)
are never read or written by `check_split_percentages_and_amounts` or
`add_split`. -/

structure NSplit where
  amount : Option PyDec
  percent : Option PyDec
  deriving Repr, DecidableEq

structure NTransaction where
  amount : PyDec
  splits : List NSplit
  deriving Repr, DecidableEq

/-- Python truthiness of an optional `Decimal`: `None` and `0` are falsy. -/
def truthyD : Option PyDec → Bool
  | none => false
  | some v => !v.isZero

/-- `sum(split.percent for split in splits if split.percent)` —
truthiness filter. -/
def sumTruthyPercents (splits : List NSplit) : PyDec :=
  PyDec.sumL (splits.filterMap (fun s => if truthyD s.percent then s.percent else none))

/-- `sum(split.amount for split in splits if split.amount is not None)`. -/
def sumSetAmounts (splits : List NSplit) : PyDec :=
  PyDec.sumL (splits.filterMap (fun s => s.amount))

/-- `sum(s.percent for s in self.splits if s.percent is not None)` —
`is not None` filter, used inside `add_split`. -/
def sumSetPercents (splits : List NSplit) : PyDec :=
  PyDec.sumL (splits.filterMap (fun s => s.percent))

/-- Validator `Transaction.check_split_percentages_and_amounts`
(transaction.py lines 175-189).  `total_percent` filters by truthiness,
`total_amount` filters by `is not None`; the validator raises when
`total_percent - 100 > 0.01` and when
`abs(total_amount) - abs(amount) > 0.01`. -/
def check_split_percentages_and_amounts (amount : PyDec) (splits : List NSplit) :
    Except String (List NSplit) :=
  let total_percent := sumTruthyPercents splits
  let total_amount := sumSetAmounts splits
  if (total_percent.sub (PyDec.ofInt 100)).gt tol001 then
    .error "Split percentages cannot exceed 100 percent of the transaction"
  else if (total_amount.abs.sub amount.abs).gt tol001 then
    .error "Split amounts cannot exceed the amount of the transaction"
  else
    .ok splits

/-- `sum(s.percent for s in self.splits if s.percent is not None)
+ split.percent - 100 > 0.01`, the percent-overshoot test of
`add_split`. -/
def addSplitPercentOver (t : NTransaction) (s : NSplit) : Bool :=
  (((sumSetPercents t.splits).add (s.percent.getD (PyDec.ofInt 0))).sub
    (PyDec.ofInt 100)).gt tol001

/-- `abs(sum(...) + split.amount) - abs(self.amount) > 0.01`, the
amount-overshoot test of `add_split`. -/
def addSplitAmountOver (t : NTransaction) (s : NSplit) : Bool :=
  (((sumSetAmounts t.splits).add (s.amount.getD (PyDec.ofInt 0))).abs.sub
    t.amount.abs).gt tol001

/-- `Transaction.add_split` (transaction.py lines 201-225).  The gate on
the incoming split uses truthiness (`if split.percent`, `if split.amount`);
the sums over the existing splits use `is not None`. -/
def add_split (t : NTransaction) (s : NSplit) : Except String NTransaction :=
  if truthyD s.percent && addSplitPercentOver t s then
    .error "The sum of the split percentages cannot be greater than 100."
  else if truthyD s.amount && addSplitAmountOver t s then
    .error "The sum of the split amounts cannot be greater than the transaction amount."
  else
    .ok { t with splits := t.splits ++ [s] }

/-- Raise condition of claim C10 read literally: the claim says
"s.percent is set" / "s.amount is set" (`isSome`) where the code gates on
Python truthiness (set and nonzero). -/
def claimC10RaiseCond (t : NTransaction) (s : NSplit) : Bool :=
  (s.percent.isSome && addSplitPercentOver t s) ||
  (s.amount.isSome && addSplitAmountOver t s)

/-- The four split amounts of the spec's concrete scenario (claims C3 and
C4): -120.83, -2100.96, -729.15 and 8333.33, with no percents set. -/
def c4Splits : List NSplit :=
  [⟨some (PyDec.scaled (-12083) 2), none⟩, ⟨some (PyDec.scaled (-210096) 2), none⟩,
   ⟨some (PyDec.scaled (-72915) 2), none⟩, ⟨some (PyDec.scaled 833333 2), none⟩]

/-- The transaction amount 5382.39 of the same scenario. -/
def c4Amount : PyDec := PyDec.scaled 538239 2

/-! ## Dates and `datetime.strptime` (model of the CPython `_strptime`
machinery, restricted to the directives used by `quiffen/utils.py`)

A format string is tokenized into literals and the directives
`%d %m %Y %y %B %b`.  Each directive is matched following the regex
CPython builds for it, with alternatives tried in regex order and full
backtracking (the matcher threads a fuel counter only to satisfy Lean's
termination checker; the fuel is always sufficient for these token
lists).  After matching, `%y` maps 0-68 to 2000+ and 69-99 to 1900+, and
the `datetime` constructor's day-of-month/leap-year validation is
applied.  The whole input string must be consumed. -/

structure PDate where
  year : ℕ
  month : ℕ
  day : ℕ
  deriving Repr, DecidableEq

inductive FmtTok where
  | lit (c : Char)
  | dayNum       -- %d
  | monNum       -- %m
  | yearFull     -- %Y
  | yearTwo      -- %y
  | monFull      -- %B
  | monAbbr      -- %b
  deriving Repr, DecidableEq

def tokenizeFmt : List Char → Option (List FmtTok)
  | [] => some []
  | '%' :: c :: rest =>
    (tokenizeFmt rest).bind (fun toks =>
      if c = 'd' then some (.dayNum :: toks)
      else if c = 'm' then some (.monNum :: toks)
      else if c = 'Y' then some (.yearFull :: toks)
      else if c = 'y' then some (.yearTwo :: toks)
      else if c = 'B' then some (.monFull :: toks)
      else if c = 'b' then some (.monAbbr :: toks)
      else none)
  | '%' :: [] => none
  | c :: rest => (tokenizeFmt rest).map (fun toks => .lit c :: toks)

/-- Partially matched date fields (year, month, day). -/
structure DParts where
  y : Option ℕ
  m : Option ℕ
  d : Option ℕ
  deriving Repr, DecidableEq

/-- Candidates for `%d`, regex `(3[01]|[12]\d|0[1-9]|[1-9])`, in
alternation order. -/
def candDay : List Char → List (ℕ × List Char)
  | '3' :: '0' :: rest => [(30, rest), (3, '0' :: rest)]
  | '3' :: '1' :: rest => [(31, rest), (3, '1' :: rest)]
  | c1 :: c2 :: rest =>
    (match digitVal c1, digitVal c2 with
     | some v1, some v2 =>
       if c1 = '1' ∨ c1 = '2' then [(10 * v1 + v2, rest), (v1, c2 :: rest)]
       else if c1 = '0' ∧ 1 ≤ v2 then [(v2, rest)]
       else if 1 ≤ v1 then [(v1, c2 :: rest)]
       else []
     | some v1, none =>
       if 1 ≤ v1 then [(v1, c2 :: rest)] else []
     | _, _ => [])
  | [c] =>
    (match digitVal c with
     | some v => if 1 ≤ v then [(v, [])] else []
     | none => [])
  | [] => []

/-- Candidates for `%m`, regex `(1[0-2]|0[1-9]|[1-9])`, in alternation
order. -/
def candMonth : List Char → List (ℕ × List Char)
  | c1 :: c2 :: rest =>
    (match digitVal c1, digitVal c2 with
     | some v1, some v2 =>
       (if c1 = '1' ∧ v2 ≤ 2 then [(10 + v2, rest)] else []) ++
       (if c1 = '0' ∧ 1 ≤ v2 then [(v2, rest)] else []) ++
       (if 1 ≤ v1 then [(v1, c2 :: rest)] else [])
     | some v1, none => if 1 ≤ v1 then [(v1, c2 :: rest)] else []
     | _, _ => [])
  | [c] =>
    (match digitVal c with
     | some v => if 1 ≤ v then [(v, [])] else []
     | none => [])
  | [] => []

/-- Candidate for `%Y`, regex `\d\d\d\d`. -/
def candYear4 : List Char → List (ℕ × List Char)
  | c1 :: c2 :: c3 :: c4 :: rest =>
    (match digitVal c1, digitVal c2, digitVal c3, digitVal c4 with
     | some v1, some v2, some v3, some v4 =>
       [(v1 * 1000 + v2 * 100 + v3 * 10 + v4, rest)]
     | _, _, _, _ => [])
  | _ => []

/-- Candidate for `%y`, regex `\d\d`, with CPython's century mapping
(0-68 → 2000+, 69-99 → 1900+). -/
def candYear2 : List Char → List (ℕ × List Char)
  | c1 :: c2 :: rest =>
    (match digitVal c1, digitVal c2 with
     | some v1, some v2 =>
       let v := v1 * 10 + v2
       [(if v ≤ 68 then 2000 + v else 1900 + v, rest)]
     | _, _ => [])
  | _ => []

/-- Full month names paired with month numbers, in the order CPython's
`__seqToRE` produces (stable sort by length, longest first, of
January..December); matching is case-insensitive. -/
def monthFullNames : List (String × ℕ) :=
  [("september", 9), ("february", 2), ("november", 11), ("december", 12),
   ("january", 1), ("october", 10), ("august", 8), ("march", 3),
   ("april", 4), ("june", 6), ("july", 7), ("may", 5)]

/-- Abbreviated month names (all the same length, so original order). -/
def monthAbbrNames : List (String × ℕ) :=
  [("jan", 1), ("feb", 2), ("mar", 3), ("apr", 4), ("may", 5), ("jun", 6),
   ("jul", 7), ("aug", 8), ("sep", 9), ("oct", 10), ("nov", 11), ("dec", 12)]

def matchNameCI (name : List Char) (cs : List Char) : Option (List Char) :=
  if name.isPrefixOf (cs.map lowerChar) then some (cs.drop name.length) else none

def candNames (names : List (String × ℕ)) (cs : List Char) : List (ℕ × List Char) :=
  names.filterMap (fun p => (matchNameCI p.1.data cs).map (fun rest => (p.2, rest)))

def candFor : FmtTok → List Char → List (ℕ × List Char)
  | .dayNum, cs => candDay cs
  | .monNum, cs => candMonth cs
  | .yearFull, cs => candYear4 cs
  | .yearTwo, cs => candYear2 cs
  | .monFull, cs => candNames monthFullNames cs
  | .monAbbr, cs => candNames monthAbbrNames cs
  | .lit _, _ => []

def setField : FmtTok → ℕ → DParts → DParts
  | .dayNum, v, st => { st with d := some v }
  | .monNum, v, st => { st with m := some v }
  | .yearFull, v, st => { st with y := some v }
  | .yearTwo, v, st => { st with y := some v }
  | .monFull, v, st => { st with m := some v }
  | .monAbbr, v, st => { st with m := some v }
  | .lit _, _, st => st

/-- Backtracking matcher: literal characters must match (case-insensitively,
as the regex is compiled with `IGNORECASE`); a directive's candidates are
tried in order, the match succeeding if the rest of the tokens match the
rest of the string.  The string must be fully consumed. -/
def matchToks : ℕ → List FmtTok → List Char → DParts → Option DParts
  | _, [], cs, st => if cs.isEmpty then some st else none
  | 0, _, _, _ => none
  | fuel + 1, .lit c :: toks, cs, st =>
    match cs with
    | [] => none
    | c2 :: rest => if lowerChar c2 = lowerChar c then matchToks fuel toks rest st else none
  | fuel + 1, tok :: toks, cs, st =>
    tryCands fuel (candFor tok cs) tok toks st
where
  tryCands : ℕ → List (ℕ × List Char) → FmtTok → List FmtTok → DParts → Option DParts
    | _, [], _, _, _ => none
    | 0, _, _, _, _ => none
    | fuel + 1, (v, rest) :: more, tok, toks, st =>
      match matchToks fuel toks rest (setField tok v st) with
      | some res => some res
      | none => tryCands fuel more tok toks st

def isLeapYear (y : ℕ) : Bool := y % 4 = 0 && (y % 100 ≠ 0 || y % 400 = 0)

def daysInMonth (y m : ℕ) : ℕ :=
  if m = 2 then (if isLeapYear y then 29 else 28)
  else if m = 4 ∨ m = 6 ∨ m = 9 ∨ m = 11 then 30
  else 31

/-- `datetime.strptime(data_string, format)` restricted to the directives
above: returns `none` where Python raises `ValueError` (no regex match,
unconsumed input, or an invalid date rejected by the `datetime`
constructor). -/
def strptime (dataString fmt : String) : Option PDate := do
  let toks ← tokenizeFmt fmt.data
  let st ← matchToks (20 * (toks.length + 1)) toks dataString.data ⟨none, none, none⟩
  let y := st.y.getD 1900
  let m := st.m.getD 1
  let d := st.d.getD 1
  if 1 ≤ y ∧ y ≤ 9999 ∧ 1 ≤ m ∧ m ≤ 12 ∧ 1 ≤ d ∧ d ≤ daysInMonth y m then
    some ⟨y, m, d⟩
  else
    none

/-! ## `parse_date` (quiffen/utils.py lines 6-68) -/

def day_first_patterns : List String :=
  ["%d/%m/%Y", "%d-%m-%Y", "%d/%m/%y", "%d-%m-%y",
   "%d0%B0%Y", "%d0%B0%y", "%d0%b0%Y", "%d0%b0%y"]

def month_first_patterns : List String :=
  ["%m/%d/%Y", "%m-%d-%Y", "%m/%d/%y", "%m-%d-%y",
   "%B0%d0%Y", "%B0%d0%y", "%b0%d0%Y", "%b0%d0%y"]

def year_first_patterns : List String :=
  ["%Y/%m/%d", "%Y-%m-%d", "%y/%m/%d", "%y-%m-%d",
   "%Y0%B0%d", "%y0%B0%d", "%Y0%b0%d", "%y0%b0%d"]

def date_patterns (day_first : Bool) : List String :=
  if day_first then day_first_patterns ++ month_first_patterns ++ year_first_patterns
  else month_first_patterns ++ day_first_patterns ++ year_first_patterns

/-- The separator normalisation `parse_date` applies before matching:
`date_string.replace(' ', '0').replace('\'', '/')`. -/
def normalizeDateString (s : String) : String :=
  pyReplaceChar '\'' '/' (pyReplaceChar ' ' '0' s)

def firstMatchingPattern (s : String) : List String → Except String PDate
  | [] => .error ("Date string '" ++ s ++ "' is not in a recognised format.")
  | p :: ps =>
    match strptime s p with
    | some d => .ok d
    | none => firstMatchingPattern s ps

/-- `parse_date(date_string, day_first=True)` (utils.py lines 6-68). -/
def parse_date (dateString : String) (dayFirst : Bool := true) : Except String PDate :=
  let normalized := normalizeDateString dateString
  firstMatchingPattern normalized (date_patterns dayFirst)

/-! ## Category (quiffen/core/category.py, pydantic model)

The node carries the fields the tree operations read and write: `name`,
`hierarchy`, `children`.  The parent back-reference is implicit in the
tree shape (operations are modelled on the root of the tree that owns the
node).  The remaining scalar fields (`desc`, `tax_related`,
`category_type`, `budget_amount`, `tax_schedule_info`) are carried along
unchanged by every operation modelled here and are omitted.  The pydantic
`hierarchy` validator makes the stored hierarchy a string (defaulting to
`name`), so `hierarchy` is total here.  Pydantic value equality
(`children.remove`, `in`, list filtering) is modelled by structural
equality on the carried fields. -/

inductive Cat where
  | mk (name : String) (hierarchy : String) (children : List Cat)
  deriving Repr

def Cat.name : Cat → String
  | .mk n _ _ => n

def Cat.hierarchy : Cat → String
  | .mk _ h _ => h

def Cat.children : Cat → List Cat
  | .mk _ _ cs => cs

mutual
def Cat.beq : Cat → Cat → Bool
  | .mk n h cs, .mk n2 h2 cs2 => n == n2 && h == h2 && Cat.beqL cs cs2
def Cat.beqL : List Cat → List Cat → Bool
  | [], [] => true
  | c :: cs, d :: ds => Cat.beq c d && Cat.beqL cs ds
  | _, _ => false
end

mutual
def csize : Cat → ℕ
  | .mk _ _ cs => 1 + csizeList cs
def csizeList : List Cat → ℕ
  | [] => 0
  | c :: cs => csize c + csizeList cs
end

/-- Python truthiness of the stored hierarchy string (`if self.hierarchy`). -/
def strTruthy (s : String) : Bool := !s.data.isEmpty

/-- The hierarchy `_refresh_hierarchy` assigns to a child:
`self.hierarchy + ":" + child.name if self.hierarchy else child.name`. -/
def childHier (h n : String) : String := if strTruthy h then h ++ ":" ++ n else n

mutual
/-- Set a node's hierarchy and rewrite its whole subtree, as the chain of
`child.hierarchy = ...; child._refresh_hierarchy()` assignments does. -/
def refreshWith (h : String) : Cat → Cat
  | .mk n _ cs => .mk n h (refreshKids h cs)
def refreshKids (h : String) : List Cat → List Cat
  | [] => []
  | c :: cs => refreshWith (childHier h c.name) c :: refreshKids h cs
end

/-- `Category._refresh_hierarchy` (category.py lines 144-151): rewrites
the hierarchies of all descendants from the node's own stored hierarchy
(which it does not change). -/
def refreshHierarchy : Cat → Cat
  | .mk n h cs => .mk n h (refreshKids h cs)

/-- `Category.traverse_down` (category.py lines 196-209): the stack loop
`current = nodes_to_visit.pop(); all_children.append(current);
nodes_to_visit.extend(current.children)`.  The fuel argument only feeds
Lean's termination checker; `traverse_down` supplies enough for the whole
tree. -/
def traverseDownGo : ℕ → List Cat → List Cat → List Cat
  | _, [], acc => acc
  | 0, stack, acc => acc ++ stack
  | fuel + 1, s :: ss, acc =>
    let cur := (s :: ss).getLast (by simp)
    traverseDownGo fuel ((s :: ss).dropLast ++ cur.children) (acc ++ [cur])

def traverse_down (c : Cat) : List Cat :=
  traverseDownGo (csize c) [c] []

/-- `Category.find_child` (category.py lines 224-241) runs the same stack
loop as `traverse_down`, returning the first node whose name matches. -/
def find_child (c : Cat) (n : String) : Option Cat :=
  (traverse_down c).find? (fun d => d.name == n)

/-- `Category.add_child` on a detached child (category.py lines 267-279):
`child.set_parent(self)` appends the child and refreshes the parent's
subtree. -/
def add_child (p c : Cat) : Cat :=
  refreshHierarchy (.mk p.name p.hierarchy (p.children ++ [c]))

/-- The single-element removal `list.remove` performs (first match by
pydantic equality). -/
def removeFirstBeq (x : Cat) : List Cat → List Cat
  | [] => []
  | c :: cs => if Cat.beq c x then cs else c :: removeFirstBeq x cs

/-! Spec-side recursive description of the order `traverse_down` visits:
the node itself, then the subtrees of its children with siblings taken in
reverse insertion order. -/
mutual
def revPre : Cat → List Cat
  | .mk n h cs => .mk n h cs :: revPreL cs
def revPreL : List Cat → List Cat
  | [] => []
  | c :: cs => revPreL cs ++ revPre c
end

/-! Spec-side flattened document-order pre-order (node, then children in
insertion order), which claim C7 distinguishes from `traverse_down`. -/
mutual
def docPre : Cat → List Cat
  | .mk n h cs => .mk n h cs :: docPreL cs
def docPreL : List Cat → List Cat
  | [] => []
  | c :: cs => docPre c ++ docPreL cs
end

/-! ### `remove_child` (category.py lines 290-338)

`remove_child` locates the first node with the requested name in
`find_child` order.  If it is the receiver itself, only
`set_parent(None)` runs (hierarchy reset to the bare name plus refresh;
the children stay).  Otherwise the located node's parent rebuilds its
child list (dropping every pydantic-equal entry, appending the removed
node's children when `keep_children`) through `set_children`, whose
`add_child` calls amount to a refresh of the parent's subtree; the
removed node is detached with its hierarchy reset (and, when
`keep_children`, its children moved out by the re-parenting loop). -/

inductive RemRes where
  | direct (removed : Cat)
  | deep (newList : List Cat) (removed : Cat)

/-- The detached subtree after `child_category.set_parent(None)`. -/
def detachRemoved (keep : Bool) (r : Cat) : Cat :=
  refreshHierarchy (.mk r.name r.name (if keep then [] else r.children))

/-- Rebuild a parent whose direct child `r` was removed:
`new_children = [c for c in parent.children if c != child_category]`
plus the grandchildren when `keep_children`, then
`parent.set_children(new_children)` (which refreshes). -/
def excise (keep : Bool) (r : Cat) (nm h : String) (cs : List Cat) : Cat :=
  refreshHierarchy
    (.mk nm h ((cs.filter (fun x => !Cat.beq x r)) ++ (if keep then r.children else [])))

mutual
/-- Search the scanned list in `find_child` order (later siblings first,
each sibling checked before its subtree). -/
def findRemoveL (n : String) (keep : Bool) : List Cat → Option RemRes
  | [] => none
  | c :: cs =>
    match findRemoveL n keep cs with
    | some (.direct r) => some (.direct r)
    | some (.deep cs' r) => some (.deep (c :: cs') r)
    | none =>
      if c.name == n then some (.direct c)
      else
        match findRemoveIn n keep c with
        | some (c', r) => some (.deep (c' :: cs) r)
        | none => none
/-- Search inside a node already known not to match. -/
def findRemoveIn (n : String) (keep : Bool) : Cat → Option (Cat × Cat)
  | .mk nm h cs =>
    match findRemoveL n keep cs with
    | some (.direct r) => some (excise keep r nm h cs, detachRemoved keep r)
    | some (.deep cs' r) => some (.mk nm h cs', r)
    | none => none
end

/-- `Category.remove_child(child, keep_children)`: `none` models the
`KeyError` when no node with the name exists. -/
def remove_child (self : Cat) (n : String) (keep : Bool) : Option (Cat × Cat) :=
  if self.name == n then
    let s := refreshHierarchy (.mk self.name self.name self.children)
    some (s, s)
  else
    findRemoveIn n keep self

/-! ### `merge` (category.py lines 340-365)

`merge` returns `True`/`False` and mutates the receiver; the model
returns the updated receiver tree.  The names-differ case tries each
child in insertion order.  The names-equal case iterates over
`other.children` by index while `add_child` (through `set_parent`)
removes the adopted child from that very list, so the element after an
adopted one is skipped; an existing same-named node is located in
`find_child` order and merged in place.  A single fuel counter feeds
Lean's termination checker (the Python loops are all bounded); `.out`
reports fuel exhaustion and is never produced for sufficient fuel. -/

inductive MRes where
  | out
  | fail
  | ok (c : Cat)

inductive FRes where
  | out
  | nomatch
  | found (c : Cat)

inductive FResL where
  | out
  | nomatch
  | found (cs : List Cat)

mutual
def mergeF : ℕ → Cat → Cat → MRes
  | 0, _, _ => .out
  | fuel + 1, self, other =>
    if other.name != self.name then
      match mergeChildF fuel self.children other with
      | .out => .out
      | .nomatch => .fail
      | .found cs' => .ok (.mk self.name self.hierarchy cs')
    else
      match mergeEqF fuel self other.children 0 with
      | none => .out
      | some t => .ok t

/-- The names-differ loop `for child in self.children: if child.merge(other):
return True`. -/
def mergeChildF : ℕ → List Cat → Cat → FResL
  | 0, _, _ => .out
  | _ + 1, [], _ => .nomatch
  | fuel + 1, c :: cs, other =>
    match mergeF fuel c other with
    | .out => .out
    | .ok c' => .found (c' :: cs)
    | .fail =>
      match mergeChildF fuel cs other with
      | .out => .out
      | .nomatch => .nomatch
      | .found cs' => .found (c :: cs')

/-- The names-equal loop over `other.children` (list `ocs`, Python loop
index `i`). -/
def mergeEqF : ℕ → Cat → List Cat → ℕ → Option Cat
  | 0, _, _, _ => none
  | fuel + 1, self, ocs, i =>
    if h : i < ocs.length then
      let oc := ocs.get ⟨i, h⟩
      match mergeAtF fuel self oc with
      | .out => none
      | .found self' => mergeEqF fuel self' ocs (i + 1)
      | .nomatch => mergeEqF fuel (add_child self oc) (removeFirstBeq oc ocs) (i + 1)
    else
      some self

/-- `this_child := self.find_child(other_child.name)` followed by
`this_child.merge(other_child)`: locate the first node named
`oc.name` in `find_child` order and run the names-equal merge there. -/
def mergeAtF : ℕ → Cat → Cat → FRes
  | 0, _, _ => .out
  | fuel + 1, self, oc =>
    if self.name == oc.name then
      match mergeEqF fuel self oc.children 0 with
      | none => .out
      | some t => .found t
    else
      match mergeAtLF fuel self.children oc with
      | .out => .out
      | .nomatch => .nomatch
      | .found cs' => .found (.mk self.name self.hierarchy cs')

/-- Scan a child list in `find_child` order: later siblings (and their
subtrees) before earlier ones. -/
def mergeAtLF : ℕ → List Cat → Cat → FResL
  | 0, _, _ => .out
  | _ + 1, [], _ => .nomatch
  | fuel + 1, c :: cs, oc =>
    match mergeAtLF fuel cs oc with
    | .out => .out
    | .found cs' => .found (c :: cs')
    | .nomatch =>
      match mergeAtF fuel c oc with
      | .out => .out
      | .found c' => .found (c' :: cs)
      | .nomatch => .nomatch
end

/-! ### `create_categories_from_hierarchy` / `add_categories_to_container`
(category.py lines 476-539)

`create_categories_from_hierarchy` returns the deepest node of the chain
it builds; `add_categories_to_container` then walks back up to the root
(`new_category.traverse_up()[-1]`).  The deepest-node view is a zipper:
the focused subtree plus the stack of ancestor frames. -/

structure CatCtx where
  name : String
  hierarchy : String
  before : List Cat
  after : List Cat

structure CatZip where
  up : List CatCtx
  focus : Cat

/-- `new_category.traverse_up()[-1]` — rebuild the root of the chain. -/
def zipRoot (z : CatZip) : Cat :=
  z.up.foldl (fun c f => .mk f.name f.hierarchy (f.before ++ [c] ++ f.after)) z.focus

/-- One `current_category = current_category.add_child(name)` step. -/
def zipAddChild (z : CatZip) (cn : String) : CatZip :=
  let f := add_child z.focus (.mk cn cn [])
  { up := ⟨f.name, f.hierarchy, f.children.dropLast, []⟩ :: z.up
    focus := f.children.getLastD (.mk cn cn []) }

/-- `create_categories_from_hierarchy(hierarchy)` (category.py lines
476-487): split on `:`, start from the first name, add each further name
as a child, return the lowest category. -/
def create_categories_from_hierarchy (hierarchy : String) : CatZip :=
  let categories := pySplit hierarchy ":"
  let rootName := categories.headD ""
  (categories.drop 1).foldl zipAddChild
    { up := [], focus := .mk rootName rootName [] }

/-- The `for category in iterator: if category.merge(root): break / else
append` loop of `add_categories_to_container` on a list container. -/
def mergeIntoContainer (fuel : ℕ) : List Cat → Cat → Option (List Cat)
  | [], root => some [root]
  | c :: cs, root =>
    match mergeF fuel c root with
    | .out => none
    | .ok c' => some (c' :: cs)
    | .fail => (mergeIntoContainer fuel cs root).map (fun cs' => c :: cs')

/-- `add_categories_to_container(new_category, categories)` (category.py
lines 490-539) on a list container; `none` only on merge fuel
exhaustion. -/
def add_categories_to_container (fuel : ℕ) (z : CatZip) (cats : List Cat) :
    Option (List Cat) :=
  if z.focus.hierarchy != z.focus.name || !z.focus.children.isEmpty then
    mergeIntoContainer fuel cats (zipRoot z)
  else
    some (cats ++ [z.focus])

/-! ## Custom-field registry (quiffen/core/base.py)

`Field` carries a line code, an attribute name and a value type (the type
is opaque to the registry logic and carried as a tag). -/

structure PField where
  line_code : String
  attr : String
  vtype : String
  deriving Repr, DecidableEq

/-- `Field.__eq__` (base.py lines 30-31): line-code equality only. -/
def fieldPyEq (f g : PField) : Bool := f.line_code == g.line_code

/-- Python string `<`: lexicographic by code point, a proper prefix
comparing less. -/
def charListLt : List Char → List Char → Bool
  | [], [] => false
  | [], _ :: _ => true
  | _ :: _, [] => false
  | c :: cs, d :: ds => if c < d then true else if d < c then false else charListLt cs ds

def pyStrLt (a b : String) : Bool := charListLt a.data b.data

/-- `Field.__lt__` (base.py lines 34-38):
`len(self.line_code) < len(other.line_code) or self.line_code < other.line_code`. -/
def fieldPyLt (f g : PField) : Bool :=
  decide (f.line_code.data.length < g.line_code.data.length) ||
    pyStrLt f.line_code g.line_code

/-- `BaseModel.add_custom_field` (base.py lines 47-78): overwrite every
entry equal by line code, else append. -/
def add_custom_field (lst : List PField) (line_code attr field_type : String) :
    List PField :=
  let new_field : PField := ⟨line_code, attr, field_type⟩
  if lst.any (fun f => fieldPyEq f new_field) then
    lst.map (fun f => if !fieldPyEq f new_field then f else new_field)
  else
    lst ++ [new_field]

/-- Stable ascending insertion by `__lt__`: insert before the first
element the new one compares less than. -/
def insertAscField (x : PField) : List PField → List PField
  | [] => [x]
  | y :: ys => if fieldPyLt x y then x :: y :: ys else y :: insertAscField x ys

/-- CPython's `sorted(lst, reverse=True)`: reverse, stable ascending
sort by `__lt__`, reverse again.  Binary insertion is modelled by linear
stable insertion, which coincides with CPython for the two-element
registries evaluated here (and whenever the comparator is consistent). -/
def pySortedRevFields (lst : List PField) : List PField :=
  (lst.reverse.foldl (fun acc x => insertAscField x acc) []).reverse

/-- `BaseModel._get_custom_fields` (base.py lines 80-84):
`sorted(fields, reverse=True)`, documented as "reverse ordered by line
code length". -/
def get_custom_fields (lst : List PField) : List PField :=
  pySortedRevFields lst

/-! ## Numeric helpers for the old model

`Decimal(round(float(s), 2))` in the old code is modelled exactly:
`float(s)` is the IEEE-754 double nearest to the decimal string's value,
`round(f, 2)` is the double nearest to the half-even 2-decimal rounding
of `f` (CPython's `double_round` via correctly rounded dtoa/strtod), and
`Decimal(float)` is the float's exact value.  Overflow and subnormals are
not modelled (QIF amounts are far inside the normal range). -/

/-- Fuel-driven floor base-2 logarithm (the fuel argument only feeds the
termination checker; `natLog2` supplies enough). -/
def log2Fuel : ℕ → ℕ → ℕ
  | 0, _ => 0
  | fuel + 1, n => if n ≥ 2 then log2Fuel fuel (n / 2) + 1 else 0

def natLog2 (n : ℕ) : ℕ := log2Fuel n n

/-- Round `num / den` (with `den` positive) to the nearest integer, ties
to even. -/
def roundHalfEvenRat (num : ℤ) (den : ℕ) : ℤ :=
  let f := Int.fdiv num den
  let r2 := 2 * (num - f * den)
  if r2 < den then f else if r2 > den then f + 1 else if f % 2 = 0 then f else f + 1

/-- Exact value of the IEEE-754 binary64 double nearest to the value of
`a` (round half to even). -/
def nearestDouble (a : PyDec) : PyDec :=
  if a.num = 0 then ⟨0, 1⟩
  else
    let sgn : ℤ := if a.num < 0 then -1 else 1
    let n := a.num.natAbs
    let d := a.den
    let k : ℤ := (natLog2 n : ℤ) - (natLog2 d : ℤ)
    let le2 : ℤ → Bool := fun e =>
      if e ≥ 0 then decide (2 ^ e.toNat * d ≤ n) else decide (d ≤ n * 2 ^ (-e).toNat)
    let e := if le2 (k + 1) then k + 1 else if le2 k then k else k - 1
    let m : ℤ :=
      if e ≤ 52 then roundHalfEvenRat ((n : ℤ) * 2 ^ (52 - e).toNat) d
      else roundHalfEvenRat (n : ℤ) (d * 2 ^ (e - 52).toNat)
    let me : ℤ × ℤ := if m = 2 ^ 53 then (2 ^ 52, e + 1) else (m, e)
    if me.2 ≥ 52 then ⟨sgn * me.1 * 2 ^ (me.2 - 52).toNat, 1⟩
    else ⟨sgn * me.1, 2 ^ (52 - me.2).toNat⟩

/-- Exact rational value of a decimal string (optional sign, digits,
optional fractional part); `none` where Python's `float`/`Decimal`
constructors raise. -/
def decStrToPyDec (s : String) : Option PyDec :=
  let core : List Char → Option PyDec := fun cs =>
    match splitOnL ['.'] cs with
    | [ip] => (digitsToNat ip).map (fun n => ⟨(n : ℤ), 1⟩)
    | [ip, fp] =>
      if ip.isEmpty ∧ fp.isEmpty then none
      else
        match (if ip.isEmpty then some 0 else digitsToNat ip),
              (if fp.isEmpty then some 0 else digitsToNat fp) with
        | some i, some f => some ⟨(i : ℤ) * 10 ^ fp.length + f, 10 ^ fp.length⟩
        | _, _ => none
    | _ => none
  match s.data with
  | '-' :: cs => (core cs).map (fun a => ⟨-a.num, a.den⟩)
  | '+' :: cs => core cs
  | cs => core cs

/-- `float(s)`. -/
def pyFloat (s : String) : Option PyDec := (decStrToPyDec s).map nearestDouble

/-- `round(f, 2)` on a double: the double nearest to the half-even
2-decimal rounding of `f`'s exact value. -/
def pyRound2 (f : PyDec) : PyDec :=
  nearestDouble (PyDec.scaled (roundHalfEvenRat (f.num * 100) f.den) 2)

/-- `Decimal(round(float(s), 2))`. -/
def decimalOfRoundedFloat (s : String) : Option PyDec := (pyFloat s).map pyRound2

/-! ## Printing helpers for the old `to_qif` -/

def intStr (i : ℤ) : String := if i < 0 then "-" ++ toString i.natAbs else toString i.natAbs

def padLeftZeros (k : ℕ) (s : String) : String :=
  if s.length < k then String.mk (List.replicate (k - s.length) '0') ++ s else s

def pad2 (n : ℕ) : String := padLeftZeros 2 (toString n)

/-- `str(Decimal)` for values with a finite decimal expansion, printed at
the minimal scale.  (Python's `Decimal` remembers its scale and may print
trailing zeros; no claim evaluates this printing on a fractional value.) -/
def pyDecStr (a : PyDec) : String :=
  let g := Nat.gcd a.num.natAbs a.den
  let n := a.num.natAbs / g
  let d := a.den / g
  let sgn := if a.num < 0 then "-" else ""
  match (List.range 41).find? (fun k => (n * 10 ^ k) % d = 0) with
  | some 0 => sgn ++ toString (n / d)
  | some k =>
    let scaled := n * 10 ^ k / d
    sgn ++ toString (scaled / 10 ^ k) ++ "." ++ padLeftZeros k (toString (scaled % 10 ^ k))
  | none => sgn ++ toString n ++ "/" ++ toString d

def pyBoolStr (b : Bool) : String := if b then "True" else "False"

/-- `datetime.strftime` restricted to the `%d`, `%m`, `%Y`, `%y`
directives and literal characters (the only ones the old `to_qif`
formats use). -/
def strftimeGo (d : PDate) : List Char → String
  | [] => ""
  | '%' :: c :: rest =>
    (if c = 'd' then pad2 d.day
     else if c = 'm' then pad2 d.month
     else if c = 'Y' then padLeftZeros 4 (toString d.year)
     else if c = 'y' then pad2 (d.year % 100)
     else String.mk ['%', c]) ++ strftimeGo d rest
  | c :: rest => String.mk [c] ++ strftimeGo d rest

def strftime (d : PDate) (fmt : String) : String := strftimeGo d fmt.data

/-! ## Old object model (quiffen/core/categories_classes.py,
accounts.py, transactions.py, security.py)

These are the classes the present `qif.py` imports.  Parent
back-references are implicit in tree shape; `_last_split` (never read by
any modelled operation) is omitted; everything else is carried.  The old
`Category.__eq__` compares names only; `in`/`not in` checks on child
lists therefore compare names. -/

inductive OldCat where
  | mk (name : String) (desc : Option String) (tax_related : Option Bool)
      (expense income : Option Bool) (budget_amount : Option PyDec)
      (tax_schedule_info : Option String) (hierarchy : String)
      (children : List OldCat)
  deriving Repr

def OldCat.name : OldCat → String
  | .mk n _ _ _ _ _ _ _ _ => n

def OldCat.desc : OldCat → Option String
  | .mk _ d _ _ _ _ _ _ _ => d

def OldCat.tax_related : OldCat → Option Bool
  | .mk _ _ t _ _ _ _ _ _ => t

def OldCat.expense : OldCat → Option Bool
  | .mk _ _ _ e _ _ _ _ _ => e

def OldCat.income : OldCat → Option Bool
  | .mk _ _ _ _ i _ _ _ _ => i

def OldCat.budget_amount : OldCat → Option PyDec
  | .mk _ _ _ _ _ b _ _ _ => b

def OldCat.tax_schedule_info : OldCat → Option String
  | .mk _ _ _ _ _ _ t _ _ => t

def OldCat.hierarchy : OldCat → String
  | .mk _ _ _ _ _ _ _ h _ => h

def OldCat.children : OldCat → List OldCat
  | .mk _ _ _ _ _ _ _ _ cs => cs

def OldCat.withChildren : OldCat → List OldCat → OldCat
  | .mk n d t e i b ts h _, cs => .mk n d t e i b ts h cs

def OldCat.withHierarchy : OldCat → String → OldCat
  | .mk n d t e i b ts _ cs, h => .mk n d t e i b ts h cs

/-- `Category(name=...)` with only a name: the old constructor defaults
(`expense=True`, `income=False`, `hierarchy=name`). -/
def mkOldCatNamed (n : String) : OldCat :=
  .mk n none none (some true) (some false) none none n []

/-- Old `Category.add_child(child)` on a Category argument (the only form
the modelled call sites use): append the child; if the parent's hierarchy
is not a substring of the child's, prefix it, subject to the hierarchy
setter's check that the result still ends with the child's name
(`RuntimeError` otherwise).  No recursive refresh happens in the old
model. -/
def oldAddChildE (p c : OldCat) : Except String OldCat :=
  if !(pyContains c.hierarchy p.hierarchy) then
    let newH := p.hierarchy ++ ":" ++ c.hierarchy
    if (pySplit newH ":").getLastD "" != c.name then
      .error "Invalid hierarchy. Must end with current category."
    else
      .ok (p.withChildren (p.children ++ [c.withHierarchy newH]))
  else
    .ok (p.withChildren (p.children ++ [c]))

/-! ### Old `create_categories` (quiffen/utils.py lines 71-137)

`find_category` scans a tree with the same pop-from-the-end stack loop as
`traverse_down` (node first, then children from the last one, each
subtree completely); `create_categories` scans the dict's roots in
insertion order, attaches the accumulated chain under the first node
found (skipping when a same-named child is already present — old
`__eq__` is name equality), and otherwise keeps building parents,
registering the chain's root when the top of the hierarchy is
reached.  Dicts are insertion-ordered association lists. -/

mutual
/-- Locate the first node named `target` (in old `find_category` order)
and attach `cur` under it: `if current_category not in parent.children:
parent.add_child(current_category)`.  `none` when the subtree has no such
node. -/
def oldAttachAt (target : String) (cur : OldCat) : OldCat →
    Option (Except String OldCat)
  | .mk n d t e i b ts h cs =>
    if n == target then
      if cs.any (fun ch => ch.name == cur.name) then some (.ok (.mk n d t e i b ts h cs))
      else some (oldAddChildE (.mk n d t e i b ts h cs) cur)
    else
      match oldAttachAtL target cur cs with
      | some (.ok cs') => some (.ok (.mk n d t e i b ts h cs'))
      | some (.error e) => some (.error e)
      | none => none
def oldAttachAtL (target : String) (cur : OldCat) :
    List OldCat → Option (Except String (List OldCat))
  | [] => none
  | c :: cs =>
    match oldAttachAtL target cur cs with
    | some (.ok cs') => some (.ok (c :: cs'))
    | some (.error e) => some (.error e)
    | none =>
      match oldAttachAt target cur c with
      | some (.ok c') => some (.ok (c' :: cs))
      | some (.error e) => some (.error e)
      | none => none
end

/-- Assignment `d[k] = v` on an insertion-ordered dict. -/
def assocSet {α : Type} (k : String) (v : α) : List (String × α) → List (String × α)
  | [] => [(k, v)]
  | (k2, v2) :: rest => if k2 == k then (k, v) :: rest else (k2, v2) :: assocSet k v rest

def assocHas {α : Type} (k : String) (d : List (String × α)) : Bool :=
  d.any (fun p => p.1 == k)

def assocGet {α : Type} (k : String) : List (String × α) → Option α
  | [] => none
  | (k2, v) :: rest => if k2 == k then some v else assocGet k rest

/-- The root scan `for root_category in categories.values(): try:
parent = root_category.find_category(...)`. -/
def oldScanRoots (target : String) (cur : OldCat) :
    List (String × OldCat) → Option (Except String (List (String × OldCat)))
  | [] => none
  | (k, root) :: rest =>
    match oldAttachAt target cur root with
    | some (.ok root') => some (.ok ((k, root') :: rest))
    | some (.error e) => some (.error e)
    | none =>
      match oldScanRoots target cur rest with
      | some (.ok rest') => some (.ok ((k, root) :: rest'))
      | some (.error e) => some (.error e)
      | none => none

/-- The body of old `create_categories`' `for i in range(2, len(hierarchy) + 1)`
loop. -/
def ccLoop (h : List String) (len : ℕ) :
    List ℕ → OldCat → List (String × OldCat) → Except String (List (String × OldCat))
  | [], _, cats => .ok cats
  | i :: more, cur, cats =>
    let ctf := h.getD (len - i) ""
    match oldScanRoots ctf cur cats with
    | some r => r
    | none =>
      let joined := pyJoin ":" (h.take (len - i + 1))
      if (pySplit joined ":").getLastD "" != ctf then
        .error "Invalid hierarchy. Must end with current category."
      else
        match oldAddChildE ((mkOldCatNamed ctf).withHierarchy joined) cur with
        | .error e => .error e
        | .ok parent =>
          let cats' := if i == len then assocSet parent.name parent cats else cats
          ccLoop h len more parent cats'

/-- Old `utils.create_categories(new_category, categories)` on a dict
container.  The old `Category.hierarchy` attribute is a string for every
constructible object (the constructor defaults it to the name), so the
`if new_category.hierarchy is not None` branch is always taken; in
particular a single-segment hierarchy makes the range empty and the
category is not added anywhere. -/
def createCategoriesOld (nc : OldCat) (cats : List (String × OldCat)) :
    Except String (List (String × OldCat)) :=
  let hierarchy := pySplit nc.hierarchy ":"
  let len := hierarchy.length
  ccLoop hierarchy len (List.range' 2 (len - 1)) nc cats

/-! ### Old `Category.from_list` / `Class` / `Security` / `Account` -/

structure OldCatKw where
  name : Option String := none
  hierarchy : Option String := none
  desc : Option String := none
  tax_related : Option Bool := none
  expense : Option Bool := none
  income : Option Bool := none
  budget_amount : Option PyDec := none
  tax_schedule_info : Option String := none

def oldCatField (kw : OldCatKw) (field : String) : Except String OldCatKw :=
  let field := pyDeleteChar '\n' field
  match field.data.head? with
  | none => .ok kw
  | some lc =>
    let info := pyTail field
    if lc = 'N' then
      .ok { kw with name := some ((pySplit info ":").getLastD ""), hierarchy := some info }
    else if lc = 'D' then .ok { kw with desc := some info }
    else if lc = 'T' then
      .ok { kw with tax_related := some (!(pyLower info == "false")) }
    else if lc = 'E' then .ok { kw with expense := some true, income := some false }
    else if lc = 'I' then .ok { kw with expense := some false, income := some true }
    else if lc = 'B' then
      match decimalOfRoundedFloat (pyDeleteChar ',' info) with
      | some v => .ok { kw with budget_amount := some v }
      | none => .error "could not parse budget amount"
    else if lc = 'R' then .ok { kw with tax_schedule_info := some info }
    else .ok kw

/-- Old `Category.from_list` (categories_classes.py lines 238-287)
followed by the constructor (name required; `expense`/`income` default
`True`/`False`; hierarchy defaults to the name). -/
def oldCatFromList (fields : List String) : Except String OldCat := do
  let kw ← fields.foldlM oldCatField {}
  match kw.name with
  | none => .error "TypeError: Category() missing required argument name"
  | some n =>
    .ok (.mk n kw.desc kw.tax_related (kw.expense.orElse (fun _ => some true))
      (kw.income.orElse (fun _ => some false)) kw.budget_amount
      kw.tax_schedule_info (kw.hierarchy.getD n) [])

def oldCatFromString (s : String) (sep : String := "\n") : Except String OldCat :=
  oldCatFromList (pySplit s sep)

structure OldClass where
  name : String
  desc : Option String
  deriving Repr, DecidableEq

/-- Old `Class.from_list` (categories_classes.py lines 518-555): `N` and
`D` lines; a missing or empty name raises. -/
def oldClassFromList (fields : List String) : Except String OldClass :=
  let st := fields.foldl (fun (st : Option String × Option String) field =>
    let field := pyDeleteChar '\n' field
    match field.data.head? with
    | none => st
    | some lc =>
      let info := pyTail field
      if lc = 'N' then (some info, st.2)
      else if lc = 'D' then (st.1, some info)
      else st) (none, none)
  match st.1 with
  | none => .error "No name specified for Class"
  | some n => if n.data.isEmpty then .error "No name specified for Class" else .ok ⟨n, st.2⟩

def oldClassFromString (s : String) (sep : String := "\n") : Except String OldClass :=
  oldClassFromList (pySplit s sep)

structure OldSecurity where
  name : Option String
  symbol : Option String
  stype : Option String
  goal : Option String
  line_number : Option ℕ
  deriving Repr, DecidableEq

/-- `Security.from_list` (security.py lines 95-137). -/
def oldSecurityFromList (fields : List String) (line_number : Option ℕ := none) :
    OldSecurity :=
  let st := fields.foldl (fun (st : OldSecurity) field =>
    let field := pyDeleteChar '\n' field
    match field.data.head? with
    | none => st
    | some lc =>
      let info := pyTail field
      if lc = 'N' then { st with name := some info }
      else if lc = 'S' then { st with symbol := some info }
      else if lc = 'T' then { st with stype := some info }
      else if lc = 'G' then { st with goal := some info }
      else st) ⟨none, none, none, none, none⟩
  { st with line_number := line_number }

def oldSecurityFromString (s : String) (sep : String := "\n") : OldSecurity :=
  oldSecurityFromList (pySplit s sep)

def VALID_ACCOUNT_TYPES : List String :=
  ["Cash", "Bank", "CCard", "Oth A", "Oth L", "Invoice", "Invst"]

structure OldSplit where
  date : Option PDate := none
  amount : Option PyDec := none
  memo : Option String := none
  cleared : Option String := none
  payee_address : Option String := none
  category : Option OldCat := none
  to_account : Option String := none
  check_number : Option ℤ := none
  percent : Option PyDec := none

structure OldTransaction where
  date : PDate
  amount : PyDec
  memo : Option String := none
  cleared : Option String := none
  payee : Option String := none
  payee_address : Option String := none
  category : Option OldCat := none
  check_number : Option ℤ := none
  reimbursable_expense : Option Bool := none
  small_business_expense : Option Bool := none
  to_account : Option String := none
  first_payment_date : Option PDate := none
  loan_length : Option PyDec := none
  num_payments : Option ℤ := none
  periods_per_annum : Option ℤ := none
  interest_rate : Option PyDec := none
  current_loan_balance : Option PyDec := none
  original_loan_amount : Option PyDec := none
  line_number : Option ℕ := none
  splits : List OldSplit := []
  is_split : Bool := false
  split_categories : List (String × OldCat) := []

structure OldInvestment where
  date : PDate
  action : Option String := none
  security : Option String := none
  price : Option PyDec := none
  quantity : Option PyDec := none
  cleared : Option String := none
  amount : Option PyDec := none
  memo : Option String := none
  first_line : Option String := none
  to_account : Option String := none
  transfer_amount : Option PyDec := none
  commission : Option PyDec := none
  line_number : Option ℕ := none

inductive OldTxnLike where
  | tr (t : OldTransaction)
  | inv (i : OldInvestment)

structure OldAccount where
  name : String
  desc : Option String := none
  account_type : Option String := none
  credit_limit : Option PyDec := none
  balance : Option PyDec := none
  date_at_balance : Option PDate := none
  transactions : List (String × List OldTxnLike) := []
  last_header : Option String := none

structure OldAccountKw where
  name : Option String := none
  desc : Option String := none
  account_type : Option String := none
  credit_limit : Option PyDec := none
  balance : Option PyDec := none
  date_at_balance : Option PDate := none

/-- `Account.from_list` (accounts.py lines 189-236) followed by the
constructor's account-type validation.  The mojibake comparison
`line_code == 'Â£'` can never hold for a single character and is dropped. -/
def oldAccountFromList (fields : List String) (day_first : Bool := true) :
    Except String OldAccount := do
  let kw ← fields.foldlM (fun (kw : OldAccountKw) field => do
    let field := pyDeleteChar '\n' field
    match field.data.head? with
    | none => pure kw
    | some lc =>
      let info := pyTail field
      if lc = '!' then pure kw
      else if lc = 'N' then pure { kw with name := some info }
      else if lc = 'D' then pure { kw with desc := some info }
      else if lc = 'T' then pure { kw with account_type := some info }
      else if lc = 'L' then
        match decStrToPyDec (pyDeleteChar ',' info) with
        | some v => pure { kw with credit_limit := some v }
        | none => .error "InvalidOperation: could not parse credit limit"
      else if lc = '$' then
        match decStrToPyDec (pyDeleteChar ',' info) with
        | some v => pure { kw with balance := some v }
        | none => .error "InvalidOperation: could not parse balance"
      else if lc = '/' then do
        let d ← parse_date info day_first
        pure { kw with date_at_balance := some d }
      else pure kw) ({} : OldAccountKw)
  match kw.name with
  | none => .error "TypeError: Account() missing required argument name"
  | some n =>
    match kw.account_type with
    | some at2 =>
      if !(VALID_ACCOUNT_TYPES.any (fun t => t == at2)) && !at2.data.isEmpty then
        .error (at2 ++ " is not a valid account type.")
      else
        .ok { name := n, desc := kw.desc, account_type := kw.account_type
              credit_limit := kw.credit_limit, balance := kw.balance
              date_at_balance := kw.date_at_balance }
    | none =>
      .ok { name := n, desc := kw.desc, account_type := none
            credit_limit := kw.credit_limit, balance := kw.balance
            date_at_balance := kw.date_at_balance }

def oldAccountFromString (s : String) (sep : String := "\n") (day_first : Bool := true) :
    Except String OldAccount :=
  oldAccountFromList (pySplit s sep) day_first

/-- `d[header].append(transaction)` with bucket creation, insertion
ordered. -/
def bucketAppend (k : String) (t : OldTxnLike) :
    List (String × List OldTxnLike) → List (String × List OldTxnLike)
  | [] => [(k, [t])]
  | (k2, l) :: rest => if k2 == k then (k2, l ++ [t]) :: rest else (k2, l) :: bucketAppend k t rest

/-- `Account.add_transaction(transaction, header)` (accounts.py lines
259-285). -/
def add_transaction (a : OldAccount) (t : OldTxnLike) (header : Option String) :
    Except String OldAccount :=
  let headerFalsy := match header with | none => true | some s => s.data.isEmpty
  if headerFalsy && a.last_header.isNone then
    .error "No header provided and no last header present"
  else
    let hdr := if headerFalsy then a.last_header.getD ""
               else (pySplit (header.getD "") ":").getLastD ""
    let lastH := if headerFalsy then a.last_header else some hdr
    .ok { a with transactions := bucketAppend hdr t a.transactions, last_header := lastH }

/-! ### Old `Transaction.from_list` / `Investment.from_list`
(transactions.py lines 431-580 and 1136-1197)

`current_split` is always the most recently appended split, so mutating
it is modelled by rewriting the last list element.  Reading an attribute
of `current_split` while it is `None` (an `E`, `$` or `%` line before any
`S` line) is Python's `AttributeError` and maps to an error. -/

/-- Mutate the last element of the split list (`none` when the list is
empty, where Python dereferences `None`). -/
def updLastSplit (splits : List OldSplit) (f : OldSplit → OldSplit) :
    Option (List OldSplit) :=
  match splits with
  | [] => none
  | _ => some (splits.dropLast ++ [f (splits.getLastD {})])

structure OldTxnKw where
  date : Option PDate := none
  amount : Option PyDec := none
  memo : Option String := none
  cleared : Option String := none
  payee : Option String := none
  payee_address : Option String := none
  category : Option OldCat := none
  check_number : Option ℤ := none
  reimbursable_expense : Option Bool := none
  to_account : Option String := none
  first_payment_date : Option PDate := none
  loan_length : Option PyDec := none
  num_payments : Option ℤ := none
  periods_per_annum : Option ℤ := none
  interest_rate : Option PyDec := none
  current_loan_balance : Option PyDec := none
  original_loan_amount : Option PyDec := none

structure OldTxnSt where
  kw : OldTxnKw := {}
  categories : List (String × OldCat) := []
  classes : List OldClass := []
  splits : List OldSplit := []
  splitCats : List (String × OldCat) := []
  lastCategory : Option String := none

/-- One field line of old `Transaction.from_list` (transactions.py lines
456-566). -/
def oldTxnField (day_first : Bool) (st : OldTxnSt) (field : String) :
    Except String OldTxnSt := do
  let field := pyDeleteChar '\n' field
  match field.data.head? with
  | none => pure st
  | some lc =>
    let info := pyTail field
    if lc = 'S' then
      let categoryName := (pySplit info ":").getLastD ""
      let newCat := (mkOldCatNamed categoryName).withHierarchy info
      -- hierarchy setter check: the assigned string must end with the name
      if (pySplit info ":").getLastD "" != categoryName then
        .error "Invalid hierarchy. Must end with current category."
      else
        match createCategoriesOld newCat st.splitCats with
        | .error e => .error e
        | .ok sc' =>
          pure { st with splitCats := sc'
                         splits := st.splits ++ [{ category := some newCat }] }
    else if lc = 'D' then do
      let d ← parse_date info day_first
      if st.splits.isEmpty then pure { st with kw := { st.kw with date := some d } }
      else
        match updLastSplit st.splits (fun s => { s with date := some d }) with
        | some sp => pure { st with splits := sp }
        | none => .error "AttributeError: NoneType"
    else if lc = 'E' then
      match updLastSplit st.splits (fun s => { s with memo := some info }) with
      | some sp => pure { st with splits := sp }
      | none => .error "AttributeError: NoneType"
    else if lc = '$' ∨ lc = '£' then
      match decimalOfRoundedFloat (pyDeleteChar ',' info) with
      | none => .error "ValueError: could not parse split amount"
      | some v =>
        match updLastSplit st.splits (fun s => { s with amount := some v }) with
        | some sp => pure { st with splits := sp }
        | none => .error "AttributeError: NoneType"
    else if lc = '%' then
      match decStrToPyDec (pyDeleteChar '%' ((pySplit info " ").getD 0 "")) with
      | none => .error "InvalidOperation: could not parse split percent"
      | some v =>
        match updLastSplit st.splits (fun s => { s with percent := some v }) with
        | some sp => pure { st with splits := sp }
        | none => .error "AttributeError: NoneType"
    else if lc = 'T' ∨ lc = 'U' then
      match decimalOfRoundedFloat (pyDeleteChar ',' info) with
      | none => .error "ValueError: could not parse amount"
      | some v =>
        if st.splits.isEmpty then pure { st with kw := { st.kw with amount := some v } }
        else
          match updLastSplit st.splits (fun s => { s with amount := some v }) with
          | some sp => pure { st with splits := sp }
          | none => .error "AttributeError: NoneType"
    else if lc = 'M' then
      if st.splits.isEmpty then pure { st with kw := { st.kw with memo := some info } }
      else
        match updLastSplit st.splits (fun s => { s with memo := some info }) with
        | some sp => pure { st with splits := sp }
        | none => .error "AttributeError: NoneType"
    else if lc = 'C' then
      if st.splits.isEmpty then pure { st with kw := { st.kw with cleared := some info } }
      else
        match updLastSplit st.splits (fun s => { s with cleared := some info }) with
        | some sp => pure { st with splits := sp }
        | none => .error "AttributeError: NoneType"
    else if lc = 'P' then
      pure { st with kw := { st.kw with payee := some info } }
    else if lc = 'A' then
      if st.splits.isEmpty then
        pure { st with kw := { st.kw with payee_address := some info } }
      else
        match updLastSplit st.splits (fun s => { s with payee_address := some info }) with
        | some sp => pure { st with splits := sp }
        | none => .error "AttributeError: NoneType"
    else if lc = 'L' then
      let hasSlash := pyContains info "/"
      let fieldInfo := if hasSlash then (pySplit info "/").getD 0 "" else info
      let classes' :=
        if hasSlash then st.classes ++ [⟨(pySplit info "/").getD 1 "", none⟩]
        else st.classes
      if pyStartsWith fieldInfo "[" then
        if st.splits.isEmpty then
          pure { st with kw := { st.kw with to_account := some (pyTailDropLast fieldInfo) }
                         classes := classes' }
        else
          match updLastSplit st.splits
              (fun s => { s with to_account := some (pyTailDropLast fieldInfo) }) with
          | some sp => pure { st with splits := sp, classes := classes' }
          | none => .error "AttributeError: NoneType"
      else
        let categoryName := (pySplit fieldInfo ":").getLastD ""
        let hier := match st.lastCategory with
          | none => fieldInfo
          | some last => last ++ ":" ++ fieldInfo
        if (pySplit hier ":").getLastD "" != categoryName then
          .error "Invalid hierarchy. Must end with current category."
        else
          let newCat := (mkOldCatNamed categoryName).withHierarchy hier
          match createCategoriesOld newCat st.categories with
          | .error e => .error e
          | .ok cats' =>
            if st.splits.isEmpty then
              pure { st with kw := { st.kw with category := some newCat }
                             categories := cats', classes := classes'
                             lastCategory := some hier }
            else
              match updLastSplit st.splits (fun s => { s with category := some newCat }) with
              | some sp =>
                pure { st with splits := sp, categories := cats', classes := classes'
                               lastCategory := some hier }
              | none => .error "AttributeError: NoneType"
    else if lc = 'N' then
      match pyInt info with
      | none => .error "ValueError: invalid literal for int()"
      | some v =>
        if st.splits.isEmpty then
          pure { st with kw := { st.kw with check_number := some v } }
        else
          -- the old Split.check_number setter validates but never assigns
          if v ≤ 0 then .error "Check number must be a positive integer"
          else pure st
    else if lc = 'F' then
      pure { st with kw := { st.kw with
        reimbursable_expense := some (!(pyLower info == "false")) } }
    else if lc = '1' then do
      let d ← parse_date info day_first
      pure { st with kw := { st.kw with first_payment_date := some d } }
    else if lc = '2' then
      match decimalOfRoundedFloat (pyDeleteChar ',' info) with
      | some v => pure { st with kw := { st.kw with loan_length := some v } }
      | none => .error "ValueError: could not parse loan length"
    else if lc = '3' then
      match pyInt (pyDeleteChar ',' info) with
      | some v => pure { st with kw := { st.kw with num_payments := some v } }
      | none => .error "ValueError: invalid literal for int()"
    else if lc = '4' then
      match pyInt (pyDeleteChar ',' info) with
      | some v => pure { st with kw := { st.kw with periods_per_annum := some v } }
      | none => .error "ValueError: invalid literal for int()"
    else if lc = '5' then
      match decimalOfRoundedFloat (pyDeleteChar ',' info) with
      | some v => pure { st with kw := { st.kw with interest_rate := some v } }
      | none => .error "ValueError: could not parse interest rate"
    else if lc = '6' then
      match decimalOfRoundedFloat (pyDeleteChar ',' info) with
      | some v => pure { st with kw := { st.kw with current_loan_balance := some v } }
      | none => .error "ValueError: could not parse loan balance"
    else if lc = '7' then
      match decimalOfRoundedFloat (pyDeleteChar ',' info) with
      | some v => pure { st with kw := { st.kw with original_loan_amount := some v } }
      | none => .error "ValueError: could not parse loan amount"
    else
      pure st

/-- The percent-defaulting pass after the field loop (transactions.py
lines 571-576): `if not split.percent: split.percent =
abs(split.amount / total_amount) * 100`.  (The model divides exactly
where Python's `Decimal` division rounds to its 28-digit context; no
claim evaluates this value.) -/
def defaultPercents (total : PyDec) (splits : List OldSplit) :
    Except String (List OldSplit) :=
  splits.mapM (fun s =>
    if !(truthyD s.percent) then
      match s.amount with
      | none => .error "TypeError: unsupported operand"
      | some a =>
        if total.isZero then .error "DivisionByZero"
        else .ok { s with percent := some (((a.div total).abs).mul (PyDec.ofInt 100)) }
    else .ok s)

/-- `Transaction.__init__`'s handling of splits (transactions.py lines
200-212): recompute `_split_categories` from the splits' categories via
`create_categories`. -/
def splitCatsOfSplits (splits : List OldSplit) :
    Except String (List (String × OldCat)) :=
  splits.foldlM (fun acc sp =>
    match sp.category with
    | none => .error "AttributeError: NoneType category"
    | some c => createCategoriesOld c acc) []

/-- Old `Transaction.from_list(lst, day_first, line_number)`:
returns the transaction together with the categories dict and the list
of classes, as the source does. -/
def oldTxnFromList (fields : List String) (day_first : Bool := true)
    (line_number : Option ℕ := none) :
    Except String (OldTransaction × List (String × OldCat) × List OldClass) := do
  let st ← fields.foldlM (oldTxnField day_first) {}
  let splits ←
    if !st.splits.isEmpty then
      match st.kw.amount with
      | none => .error "KeyError: amount"
      | some total => defaultPercents total st.splits
    else pure st.splits
  let categories := st.splitCats.foldl
    (fun acc p => if assocHas p.1 acc then acc else acc ++ [p]) st.categories
  match st.kw.date, st.kw.amount with
  | none, _ => .error "TypeError: Transaction() missing required argument date"
  | _, none => .error "TypeError: Transaction() missing required argument amount"
  | some date, some amount => do
    let sc ← splitCatsOfSplits splits
    let txn : OldTransaction :=
      { date := date, amount := amount, memo := st.kw.memo, cleared := st.kw.cleared
        payee := st.kw.payee, payee_address := st.kw.payee_address
        category := st.kw.category, check_number := st.kw.check_number
        reimbursable_expense := st.kw.reimbursable_expense
        to_account := st.kw.to_account, first_payment_date := st.kw.first_payment_date
        loan_length := st.kw.loan_length, num_payments := st.kw.num_payments
        periods_per_annum := st.kw.periods_per_annum, interest_rate := st.kw.interest_rate
        current_loan_balance := st.kw.current_loan_balance
        original_loan_amount := st.kw.original_loan_amount
        line_number := line_number, splits := splits
        is_split := !splits.isEmpty, split_categories := sc }
    pure (txn, categories, st.classes)

def oldTxnFromString (s : String) (sep : String := "\n") (day_first : Bool := true)
    (line_number : Option ℕ := none) :
    Except String (OldTransaction × List (String × OldCat) × List OldClass) :=
  oldTxnFromList (pySplit s sep) day_first line_number

/-- Old `Investment.from_list` (transactions.py lines 1136-1197). -/
def oldInvFromList (fields : List String) (day_first : Bool := true)
    (line_number : Option ℕ := none) : Except String OldInvestment := do
  let kw ← fields.foldlM (fun (kw : OldInvestment × Bool) field => do
    let field := pyDeleteChar '\n' field
    match field.data.head? with
    | none => pure kw
    | some lc =>
      let info := pyTail field
      let (st, hasDate) := kw
      if lc = 'D' then do
        let d ← parse_date info day_first
        pure ({ st with date := d }, true)
      else if lc = 'N' then pure ({ st with action := some info }, hasDate)
      else if lc = 'Y' then pure ({ st with security := some info }, hasDate)
      else if lc = 'I' then
        match decimalOfRoundedFloat (pyDeleteChar ',' info) with
        | some v => pure ({ st with price := some v }, hasDate)
        | none => .error "ValueError: could not parse price"
      else if lc = 'Q' then
        match decimalOfRoundedFloat (pyDeleteChar ',' info) with
        | some v => pure ({ st with quantity := some v }, hasDate)
        | none => .error "ValueError: could not parse quantity"
      else if lc = 'C' then pure ({ st with cleared := some info }, hasDate)
      else if lc = 'T' ∨ lc = 'U' then
        match decimalOfRoundedFloat (pyDeleteChar ',' info) with
        | some v => pure ({ st with amount := some v }, hasDate)
        | none => .error "ValueError: could not parse amount"
      else if lc = 'M' then pure ({ st with memo := some info }, hasDate)
      else if lc = 'P' then pure ({ st with first_line := some info }, hasDate)
      else if lc = 'L' then pure ({ st with to_account := some info }, hasDate)
      else if lc = '$' then
        match decimalOfRoundedFloat (pyDeleteChar ',' info) with
        | some v => pure ({ st with transfer_amount := some v }, hasDate)
        | none => .error "ValueError: could not parse transfer amount"
      else if lc = 'O' then
        match decimalOfRoundedFloat (pyDeleteChar ',' info) with
        | some v => pure ({ st with commission := some v }, hasDate)
        | none => .error "ValueError: could not parse commission"
      else pure kw) (({ date := ⟨1, 1, 1⟩ } : OldInvestment), false)
  if !kw.2 then .error "TypeError: Investment() missing required argument date"
  else pure { kw.1 with line_number := line_number }

def oldInvFromString (s : String) (sep : String := "\n") (day_first : Bool := true)
    (line_number : Option ℕ := none) : Except String OldInvestment :=
  oldInvFromList (pySplit s sep) day_first line_number

/-! ## `Qif.parse` (quiffen/core/qif.py lines 145-238)

The file-system part of `parse` (`_read_qif`: extension check, read,
strip) is modelled by taking the file's text; `parse` is then a fold of
the caret-separated sections over the parser state. -/

def VALID_TRANSACTION_ACCOUNT_TYPES : List String :=
  ["!type:cash", "!type:bank", "!type:ccard", "!type:oth a", "!type:oth l",
   "!type:invoice"]

structure OldQif where
  accounts : List (String × OldAccount)
  categories : List (String × OldCat)
  classes : List (String × OldClass)
  securities : List (Option String × OldSecurity)

structure ParseSt where
  accounts : List (String × OldAccount) := []
  last_account : Option String := none
  categories : List (String × OldCat) := []
  classes : List (String × OldClass) := []
  securities : List (Option String × OldSecurity) := []
  last_header : Option String := none
  line_number : ℕ := 1

/-- The comment/blank-skipping loop at the top of each section: the
first line that is non-blank and does not start with `#`; `none` models
the `IndexError` when every line is blank or a comment. -/
def findHeaderLine : List String → Option String
  | [] => none
  | l :: ls =>
    if !(pyStrip l).data.isEmpty && (l.data.headD '#') ≠ '#' then some l
    else findHeaderLine ls

def assocSetOpt {α : Type} (k : Option String) (v : α) :
    List (Option String × α) → List (Option String × α)
  | [] => [(k, v)]
  | (k2, v2) :: rest => if k2 == k then (k, v) :: rest else (k2, v2) :: assocSetOpt k v rest

/-- `d[k] = v` for an account dict with in-place modification of the
account stored under a key. -/
def accountsModify (k : String) (f : OldAccount → Except String OldAccount) :
    List (String × OldAccount) → Except String (List (String × OldAccount))
  | [] => .error "KeyError"
  | (k2, v) :: rest =>
    if k2 == k then do
      let v' ← f v
      pure ((k2, v') :: rest)
    else do
      let rest' ← accountsModify k f rest
      pure ((k2, v) :: rest')

/-- One section of `Qif.parse` (qif.py lines 175-236). -/
def processSection (separator : String) (day_first : Bool) (st : ParseSt)
    (sec : String) : Except String ParseSt := do
  if sec.data.isEmpty then pure st
  else
    let lines := pySplit sec "\n"
    match findHeaderLine lines with
    | none => .error "IndexError: list index out of range"
    | some hl => do
      let header ←
        if (hl.data.headD ' ') ≠ '!' then
          match st.last_header with
          | none =>
            Except.error ("Header '" ++ hl ++ "' not recognised and no previous header supplied")
          | some lh => pure lh
        else pure hl
      let st' ←
        if pyContains header "!Type:Cat" then do
          let newCategory ← oldCatFromString sec
          let categories ← createCategoriesOld newCategory st.categories
          pure { st with categories := categories }
        else if pyContains header "!Type:Class" then do
          let newClass ← oldClassFromString sec
          pure { st with classes := assocSet newClass.name newClass st.classes }
        else if pyContains header "!Type:Security" then
          let newSecurity := oldSecurityFromString sec
          pure { st with securities := assocSetOpt newSecurity.name newSecurity st.securities }
        else if pyContains header "!Account" then do
          let newAccount ← oldAccountFromString sec
          pure { st with accounts := assocSet newAccount.name newAccount st.accounts
                         last_account := some newAccount.name }
        else if pyContains header "!Type" && st.accounts.isEmpty then
          let defaultAccount : OldAccount :=
            { name := "Quiffen Default Account"
              desc := some ("The default account created by Quiffen when no other accounts were "
                ++ "present") }
          pure { st with accounts := assocSet defaultAccount.name defaultAccount st.accounts
                         last_account := some defaultAccount.name }
        else if pyContains header "!Type:Invst" then do
          let newInvestment ← oldInvFromString sec separator day_first
            (some st.line_number)
          match st.last_account with
          | none => .error "KeyError: None"
          | some la => do
            let accounts ← accountsModify la
              (fun a => add_transaction a (.inv newInvestment) (some "Invst")) st.accounts
            pure { st with accounts := accounts }
        else if VALID_TRANSACTION_ACCOUNT_TYPES.any
            (fun t => t == pyLower (pyDeleteChar ' ' header)) then do
          let res ← oldTxnFromString sec separator day_first (some st.line_number)
          let (newTransaction, newCategories, newClasses) := res
          match st.last_account with
          | none => .error "KeyError: None"
          | some la => do
            let accounts ← accountsModify la
              (fun a => add_transaction a (.tr newTransaction)
                (some (pyDeleteChar ' ' header))) st.accounts
            -- `classes.update(new_classes)` with a non-empty list raises TypeError
            if !newClasses.isEmpty then
              .error "TypeError: cannot convert dictionary update sequence element"
            else
              pure { st with accounts := accounts
                             categories := newCategories.foldl
                               (fun acc p => assocSet p.1 p.2 acc) st.categories }
        else pure st
      pure { st' with last_header := some header
                      line_number := st'.line_number + lines.length }

/-- `Qif.parse` on the already-read file text (qif.py lines 145-238,
with `_read_qif`'s strip and emptiness check from lines 252-263). -/
def parseQifData (raw : String) (separator : String := "\n") (day_first : Bool := true) :
    Except String OldQif := do
  let data := pyStripChar '\n' (pyStrip raw)
  if data.data.isEmpty then .error "File is empty"
  else do
    let sections := pySplit data "^\n"
    let st ← sections.foldlM (processSection separator day_first) {}
    pure ⟨st.accounts, st.categories, st.classes, st.securities⟩

/-! ## `Qif.to_qif` (quiffen/core/qif.py lines 419-629)

Serialisation with the default `date_format='%d/%m/%Y'`.  Python
f-string truthiness checks (`if value:`) skip `None` and empty strings;
`is not None` checks skip only `None`.  The category loop iterates a
list extended with each node's children while being traversed — a
breadth-first queue, run here on fuel covering the whole forest. -/

def optTruthyStr : Option String → Bool
  | none => false
  | some s => !s.data.isEmpty

/-- Emit `code + value + "\n"` when the optional string is truthy. -/
def lineIfTruthy (code : String) : Option String → String
  | none => ""
  | some s => if s.data.isEmpty then "" else code ++ s ++ "\n"

/-- Emit `code + str(value) + "\n"` when the optional value is not
`None`. -/
def lineIfSomeDec (code : String) : Option PyDec → String
  | none => ""
  | some v => code ++ pyDecStr v ++ "\n"

def lineIfSomeInt (code : String) : Option ℤ → String
  | none => ""
  | some v => code ++ intStr v ++ "\n"

def lineIfSomeBool (code : String) : Option Bool → String
  | none => ""
  | some b => code ++ pyBoolStr b ++ "\n"

mutual
def oldCsize : OldCat → ℕ
  | .mk _ _ _ _ _ _ _ _ cs => 1 + oldCsizeList cs
def oldCsizeList : List OldCat → ℕ
  | [] => 0
  | c :: cs => oldCsize c + oldCsizeList cs
end

/-- The per-category record of the `!Type:Cat` block (qif.py lines
465-489). -/
def oldCatQifLines (c : OldCat) : String :=
  "N" ++ c.hierarchy ++ "\n"
  ++ lineIfTruthy "D" c.desc
  ++ lineIfSomeBool "T" c.tax_related
  ++ lineIfSomeBool "E" c.expense
  ++ lineIfSomeBool "I" c.income
  ++ lineIfSomeDec "B" c.budget_amount
  ++ lineIfTruthy "R" c.tax_schedule_info
  ++ "^\n"

/-- The queue loop `for category in categories_to_visit: ...
categories_to_visit.extend(category.children)`. -/
def oldCatQifLoop : ℕ → List OldCat → String
  | _, [] => ""
  | 0, _ => ""
  | fuel + 1, c :: rest => oldCatQifLines c ++ oldCatQifLoop fuel (rest ++ c.children)

def oldSplitQif (date_format : String) (s : OldSplit) : String :=
  (match s.category with
   | some c => "S" ++ c.hierarchy ++ "\n"
   | none => "")
  ++ (match s.date with
      | some d => "D" ++ strftime d date_format ++ "\n"
      | none => "")
  ++ lineIfSomeDec "$" s.amount
  ++ (match s.percent with
      | some p => "%" ++ pyDecStr p ++ "\n"
      | none => "")
  ++ lineIfTruthy "E" s.memo
  ++ lineIfTruthy "C" s.cleared
  ++ lineIfTruthy "A" s.payee_address
  ++ (match s.to_account with
      | some a => if a.data.isEmpty then "" else "L[" ++ a ++ "]\n"
      | none => "")
  ++ lineIfSomeInt "N" s.check_number

/-- The non-investment transaction body (qif.py lines 529-596). -/
def oldTxnQifBody (date_format : String) (t : OldTransaction) : String :=
  lineIfTruthy "P" t.payee
  ++ lineIfTruthy "A" t.payee_address
  ++ (match t.category with
      | some c => "L" ++ c.hierarchy ++ "\n"
      | none => "")
  ++ (match t.to_account with
      | some a => if a.data.isEmpty then "" else "L[" ++ a ++ "]\n"
      | none => "")
  ++ lineIfSomeInt "N" t.check_number
  ++ lineIfSomeBool "F" t.reimbursable_expense
  ++ (match t.first_payment_date with
      | some d => "1" ++ strftime d date_format ++ "\n"
      | none => "")
  ++ lineIfSomeDec "2" t.loan_length
  ++ lineIfSomeInt "3" t.num_payments
  ++ lineIfSomeInt "4" t.periods_per_annum
  ++ lineIfSomeDec "5" t.interest_rate
  ++ lineIfSomeDec "6" t.current_loan_balance
  ++ lineIfSomeDec "7" t.original_loan_amount
  ++ (if t.is_split then String.join (t.splits.map (oldSplitQif date_format)) else "")

/-- The investment body (qif.py lines 598-622). -/
def oldInvQifBody (i : OldInvestment) : String :=
  lineIfTruthy "N" i.action
  ++ lineIfTruthy "Y" i.security
  ++ lineIfSomeDec "I" i.price
  ++ lineIfSomeDec "Q" i.quantity
  ++ lineIfTruthy "P" i.first_line
  ++ lineIfTruthy "L" i.to_account
  ++ lineIfSomeDec "$" i.transfer_amount
  ++ lineIfSomeDec "O" i.commission

/-- One transaction-like record under a header (qif.py lines 517-623).
The code branches on the header, not on the record's type, so a record
of the other type under a mismatched header is Python's
`AttributeError`. -/
def oldTxnLikeQif (date_format header : String) : OldTxnLike → Except String String
  | .tr t =>
    if pyContains header "Invst" then .error "AttributeError"
    else
      .ok ("D" ++ strftime t.date date_format ++ "\n"
        ++ "T" ++ pyDecStr t.amount ++ "\n"
        ++ lineIfTruthy "M" t.memo
        ++ lineIfTruthy "C" t.cleared
        ++ oldTxnQifBody date_format t
        ++ "^\n")
  | .inv i =>
    if pyContains header "Invst" then
      .ok ("D" ++ strftime i.date date_format ++ "\n"
        ++ lineIfSomeDec "T" i.amount
        ++ lineIfTruthy "M" i.memo
        ++ lineIfTruthy "C" i.cleared
        ++ oldInvQifBody i
        ++ "^\n")
    else .error "AttributeError"

def oldAccountQif (date_format : String) (a : OldAccount) : Except String String := do
  let header :=
    "!Account\n" ++ "N" ++ a.name ++ "\n"
    ++ lineIfTruthy "D" a.desc
    ++ lineIfTruthy "T" a.account_type
    ++ lineIfSomeDec "L" a.credit_limit
    ++ lineIfSomeDec "$" a.balance
    ++ (match a.date_at_balance with
        | some d => "/" ++ strftime d date_format ++ "\n"
        | none => "")
    ++ "^\n"
  let buckets ← a.transactions.mapM (fun (p : String × List OldTxnLike) => do
    let body ← p.2.mapM (oldTxnLikeQif date_format p.1)
    pure ("!Type:" ++ p.1 ++ "\n" ++ String.join body))
  pure (header ++ String.join buckets)

/-- `Qif.to_qif(path=None, date_format='%d/%m/%Y')` (qif.py lines
419-629), without the optional file write. -/
def toQifOld (q : OldQif) (date_format : String := "%d/%m/%Y") : Except String String := do
  let classesPart :=
    if q.classes.isEmpty then ""
    else
      "!Type:Class\n" ++ String.join (q.classes.map (fun p =>
        "N" ++ p.2.name ++ "\n" ++ lineIfTruthy "D" p.2.desc ++ "^\n"))
  let securitiesPart :=
    if q.securities.isEmpty then ""
    else
      "!Type:Security\n" ++ String.join (q.securities.map (fun p =>
        "N" ++ (p.2.name.getD "None") ++ "\n"
        ++ lineIfTruthy "S" p.2.symbol
        ++ lineIfTruthy "T" p.2.stype
        ++ lineIfTruthy "G" p.2.goal
        ++ "^\n"))
  let roots := q.categories.map (fun p => p.2)
  let categoriesPart :=
    if q.categories.isEmpty then ""
    else "!Type:Cat\n" ++ oldCatQifLoop (oldCsizeList roots + 1) roots
  let accountsParts ← q.accounts.mapM (fun p => oldAccountQif date_format p.2)
  pure (classesPart ++ securitiesPart ++ categoriesPart ++ String.join accountsParts)

/-! ## Hierarchy invariant (claim C2)

`invb` is the claim's invariant for a root tree: the root's stored
hierarchy is its name, and every parent/child pair in the tree satisfies
`child.hierarchy = parent.hierarchy ++ ":" ++ child.name`.  `namesOKb`
is the data model's "name non-empty" well-formedness (spec §3). -/

mutual
def pairsOKb : Cat → Bool
  | .mk _ h cs => kidsOKb h cs
def kidsOKb (h : String) : List Cat → Bool
  | [] => true
  | c :: cs => (c.hierarchy == h ++ ":" ++ c.name) && pairsOKb c && kidsOKb h cs
end

def invb (c : Cat) : Bool := (c.hierarchy == c.name) && pairsOKb c

mutual
def namesOKb : Cat → Bool
  | .mk n _ cs => strTruthy n && namesOKL cs
def namesOKL : List Cat → Bool
  | [] => true
  | c :: cs => namesOKb c && namesOKL cs
end

/-! ## Concrete inputs for the claims about `Qif.parse` / `Qif.to_qif` -/

/-- A QIF file with a single category section whose hierarchy has two
levels. -/
def c1Input : String := "!Type:Cat\nNFood:Groceries"

def c1FirstParse : Except String OldQif := parseQifData c1Input

def c1Reparse : Except String OldQif :=
  match c1FirstParse with
  | .ok q =>
    match toQifOld q with
    | .ok text => parseQifData text
    | .error e => .error e
  | .error e => .error e

/-- The `(expense, income)` flags of the category named `Groceries`
under root `Food` in a parse result. -/
def c1GroceriesFlags : Except String OldQif → Option (Option Bool × Option Bool)
  | .ok q =>
    match assocGet "Food" q.categories with
    | some root =>
      match root.children with
      | [g] => if g.name == "Groceries" then some (g.expense, g.income) else none
      | _ => none
    | none => none
  | .error _ => none

/-- A QIF file whose first section is a bank transaction (no account
established yet), followed by a second transaction section that reuses
the carried header. -/
def c6Input : String :=
  "!Type:Bank\nD01/01/2020\nT100.00\n^\nD02/01/2020\nT200.00"

def c6Parse : Except String OldQif := parseQifData c6Input

/-- Names of the accounts in a C6 parse result, in dict order. -/
def c6AccountNames : List String :=
  match c6Parse with
  | .ok q => q.accounts.map Prod.fst
  | .error _ => []

/-- The description of the single parsed account. -/
def c6AccountDesc : Option (Option String) :=
  match c6Parse with
  | .ok q =>
    match q.accounts with
    | [(_, a)] => some a.desc
    | _ => none
  | .error _ => none

/-- The dates of the records in the single account's `Bank` bucket. -/
def c6BankBucketDates : Option (List PDate) :=
  match c6Parse with
  | .ok q =>
    match q.accounts with
    | [(_, a)] =>
      (assocGet "Bank" a.transactions).map
        (List.map (fun t => match t with | .tr tr => tr.date | .inv i => i.date))
    | _ => none
  | .error _ => none

/-- Claim C10's counterexample transaction: splits whose percents sum to
120 (such a state is constructible in Python by direct mutation of
`splits`, which pydantic does not re-validate). -/
def c10Txn : NTransaction :=
  ⟨PyDec.ofInt 100, [⟨none, some (PyDec.ofInt 60)⟩, ⟨none, some (PyDec.ofInt 60)⟩]⟩

/-- A split whose percent is set to zero: "set" for the claim, falsy for
the code. -/
def c10Split : NSplit := ⟨none, some (PyDec.ofInt 0)⟩

/-- A tree with two children, distinguishing reverse-sibling DFS order
from document-order pre-order. -/
def c7Sample : Cat :=
  .mk "r" "r" [.mk "a" "r:a" [.mk "c" "r:a:c" []], .mk "b" "r:b" []]

/-- The container after inserting the two hierarchy chains of claim C8
(merge fuel 100 is ample for these trees). -/
def c8Container : Option (List Cat) :=
  (add_categories_to_container 100
      (create_categories_from_hierarchy "Plant:Tree:Oak:Oak Leaf") []).bind
    (add_categories_to_container 100
      (create_categories_from_hierarchy "Plant:Tree:Birch:Birch Leaf"))

/-- Names of the children of the `Tree` node of the single root of the
C8 container. -/
def c8TreeChildren : Option (List String) :=
  c8Container.bind (fun l =>
    match l with
    | [root] => (find_child root "Tree").map (fun t => t.children.map Cat.name)
    | _ => none)

/-- The character substitution claim C5 describes: every space becomes
`'0'`, every apostrophe becomes `'/'`. -/
def substDateChar (c : Char) : Char :=
  if c = ' ' then '0' else if c = '\'' then '/' else c

/-! # Theorems -/

/-- Claim C4: constructing a Transaction with amount 5382.39 and exactly
four splits whose amounts are -120.83, -2100.96, -729.15 and 8333.33
(and no percents set) succeeds without raising any validation error: the
`splits` validator accepts the list. -/
theorem claim_C4_concrete_splits_accepted :
    check_split_percentages_and_amounts c4Amount c4Splits = .ok c4Splits := rfl

/-- Counterexample to claim C3 as stated: the very transaction of claim
C4 is accepted by the validator, yet the sum of the absolute values of
its split amounts is 11284.27, which exceeds the absolute transaction
amount plus the tolerance (5382.39 + 0.01).  The code bounds
`abs(sum(amounts))`, not `sum(abs(amounts))`. -/
theorem claim_C3_counterexample :
    check_split_percentages_and_amounts c4Amount c4Splits = .ok c4Splits ∧
    (PyDec.sumL (c4Splits.filterMap (fun s => s.amount.map PyDec.abs))).eqv
      (PyDec.scaled 1128427 2) = true ∧
    (PyDec.sumL (c4Splits.filterMap (fun s => s.amount.map PyDec.abs))).gt
      (c4Amount.abs.add tol001) = true :=
  ⟨rfl, by decide, by decide⟩

/-- Claim C3 amended: for every transaction accepted by the splits
validator, the absolute value of the **sum** of the split amounts is at
most the absolute transaction amount plus the tolerance (0.01), and the
sum of the (truthy) split percents is at most 100 + 0.01; the validator
raises exactly when either bound is violated. -/
theorem claim_C3_amended (amount : PyDec) (splits : List NSplit) :
    check_split_percentages_and_amounts amount splits = .ok splits ↔
      (((sumTruthyPercents splits).sub (PyDec.ofInt 100)).gt tol001 = false ∧
        ((sumSetAmounts splits).abs.sub amount.abs).gt tol001 = false) := by
  by_cases h1 : ((sumTruthyPercents splits).sub (PyDec.ofInt 100)).gt tol001 <;>
    by_cases h2 : ((sumSetAmounts splits).abs.sub amount.abs).gt tol001 <;>
      simp [check_split_percentages_and_amounts, h1, h2]

/-- Witness for the amended claim C3 at the concrete transaction of
claim C4. -/
theorem claim_C3_amended_witness :
    check_split_percentages_and_amounts c4Amount c4Splits = .ok c4Splits :=
  (claim_C3_amended c4Amount c4Splits).mpr ⟨by decide, by decide⟩

/-- Counterexample to claim C10 as stated: for a transaction whose
existing splits' percents sum to 120 and a new split whose percent is
**set** to 0, the claim's raise condition holds (percent is set and
120 + 0 exceeds 100 by more than 0.01), yet `add_split` appends the
split without error, because the code gates on Python truthiness
(`if split.percent:`) and `Decimal(0)` is falsy. -/
theorem claim_C10_counterexample :
    claimC10RaiseCond c10Txn c10Split = true ∧
    add_split c10Txn c10Split = .ok { c10Txn with splits := c10Txn.splits ++ [c10Split] } :=
  ⟨by decide, rfl⟩

/-- Claim C10 amended: `add_split` either appends the split as the new
last element or errors leaving the transaction unchanged, and it errors
exactly when the split's percent is set **to a nonzero value** and the
existing percents plus it overshoot 100 by more than 0.01, or the
split's amount is set **to a nonzero value** and the absolute value of
the existing amounts' sum plus it overshoots the absolute transaction
amount by more than 0.01. -/
theorem claim_C10_amended (t : NTransaction) (s : NSplit) :
    (add_split t s = .ok { t with splits := t.splits ++ [s] } ∨
      ∃ e, add_split t s = .error e) ∧
    ((∃ e, add_split t s = .error e) ↔
      ((truthyD s.percent = true ∧ addSplitPercentOver t s = true) ∨
       (truthyD s.amount = true ∧ addSplitAmountOver t s = true))) := by
  simp only [add_split, Bool.and_eq_true]
  by_cases hp : truthyD s.percent = true ∧ addSplitPercentOver t s = true
  · simp [hp]
  · by_cases ha : truthyD s.amount = true ∧ addSplitAmountOver t s = true
    · simp [hp, ha]
    · simp [hp, ha]

/-- Claim C9: registering an already-registered line code overwrites the
entry (shown at code `"A"`); but the registry returned for matching is
**not** always sorted longest-first: registering `"AA"` then `"Z"`
yields `["Z", "AA"]` — the one-character code first — because
`Field.__lt__` also orders lexicographically longer-before-shorter
(`"AA" < "Z"`), contradicting `_get_custom_fields`' documented "reverse
ordered by line code length". -/
theorem claim_C9_registry_order :
    add_custom_field (add_custom_field [] "A" "attr1" "int") "A" "attr2" "str" =
      [⟨"A", "attr2", "str"⟩] ∧
    (get_custom_fields (add_custom_field (add_custom_field [] "AA" "a" "str")
      "Z" "z" "str")).map PField.line_code = ["Z", "AA"] ∧
    "Z".data.length < "AA".data.length :=
  ⟨rfl, by decide, by decide⟩

/-- Claim C1: parsing `"!Type:Cat\nNFood:Groceries"` yields the category
`Groceries` with `expense=True, income=False`; reparsing the text
produced by `to_qif` yields `expense=False, income=True` for the same
category, because `to_qif` writes both an `ETrue` and an `IFalse` line
and the parser treats any `E`/`I` line as a toggle (the last one wins).
The reconstructed object graph therefore differs from the original. -/
theorem claim_C1_roundtrip_flags_flip :
    c1GroceriesFlags c1FirstParse = some (some true, some false) ∧
    c1GroceriesFlags c1Reparse = some (some false, some true) :=
  ⟨rfl, rfl⟩

/-- Claim C6: parsing a file whose first section is a bank transaction
synthesizes the default account with its fixed name and description and
makes it current, but the record assembled from that same triggering
section is discarded — only the second section's record (dated
2020-01-02) reaches the `Bank` bucket; the first (dated 2020-01-01)
appears nowhere. -/
theorem claim_C6_triggering_record_dropped :
    c6AccountNames = ["Quiffen Default Account"] ∧
    c6AccountDesc = some (some ("The default account created by Quiffen when no "
      ++ "other accounts were present")) ∧
    c6BankBucketDates = some [⟨2020, 1, 2⟩] :=
  ⟨rfl, by decide, rfl⟩

/-! ### Claim C7: `traverse_down` order -/

theorem csize_eq (c : Cat) : csize c = 1 + csizeList c.children := by
  cases c; rfl

theorem csize_pos (c : Cat) : 0 < csize c := by
  cases c; simp [csize]

theorem csizeList_append (a b : List Cat) :
    csizeList (a ++ b) = csizeList a + csizeList b := by
  induction a with
  | nil => simp [csizeList]
  | cons c a ih => simp [csizeList, ih]; omega

theorem revPreL_append (a b : List Cat) :
    revPreL (a ++ b) = revPreL b ++ revPreL a := by
  induction a with
  | nil => simp [revPreL]
  | cons c a ih => simp [revPreL, ih]

theorem traverseDownGo_spec :
    ∀ fuel stack acc, csizeList stack ≤ fuel →
      traverseDownGo fuel stack acc = acc ++ revPreL stack := by
  intro fuel
  induction fuel with
  | zero =>
    intro stack acc h
    cases stack with
    | nil => simp [traverseDownGo, revPreL]
    | cons s ss =>
      exfalso
      have := csize_pos s
      simp [csizeList] at h
      omega
  | succ fuel ih =>
    intro stack acc h
    cases stack with
    | nil => simp [traverseDownGo, revPreL]
    | cons s ss =>
      have hne : s :: ss ≠ [] := by simp
      set cur := (s :: ss).getLast (by simp) with hcur
      have hsplit : (s :: ss).dropLast ++ [cur] = s :: ss :=
        List.dropLast_append_getLast hne
      have hsz : csizeList ((s :: ss).dropLast ++ cur.children) ≤ fuel := by
        have h1 : csizeList ((s :: ss).dropLast) + csize cur = csizeList (s :: ss) := by
          rw [← hsplit, csizeList_append]
          simp [csizeList]
        have h2 := csize_eq cur
        rw [csizeList_append]
        omega
      rw [traverseDownGo, ih _ _ hsz]
      rw [show (acc ++ [cur]) ++ revPreL ((s :: ss).dropLast ++ cur.children)
            = acc ++ ([cur] ++ revPreL ((s :: ss).dropLast ++ cur.children)) by
          simp]
      congr 1
      rw [revPreL_append, ← hsplit, revPreL_append]
      have : revPreL [cur] = revPre cur := by simp [revPreL]
      rw [this]
      cases cur with
      | mk n hh cs => simp [revPre, Cat.children]

/-- Claim C7: `traverse_down` returns the node itself followed by all
descendants in the stack-based depth-first order in which a node's
children are visited in reverse insertion order, each child's whole
subtree before the next sibling (`revPre`); this differs from flattened
document-order pre-order (`docPre`), witnessed on a two-child tree. -/
theorem claim_C7_traverse_down_order :
    (∀ c : Cat, traverse_down c = revPre c) ∧
    (traverse_down c7Sample).map Cat.name ≠ (docPre c7Sample).map Cat.name := by
  constructor
  · intro c
    have h : csizeList [c] ≤ csize c := by simp [csizeList]
    rw [traverse_down, traverseDownGo_spec (csize c) [c] [] h]
    simp [revPreL]
  · decide

/-! ### Claim C5: `parse_date` -/

theorem firstMatchingPattern_ok_iff (s : String) (d : PDate) :
    ∀ ps : List String, firstMatchingPattern s ps = .ok d ↔
      ∃ pre p post, ps = pre ++ p :: post ∧ strptime s p = some d ∧
        ∀ q ∈ pre, strptime s q = none := by
  intro ps
  induction ps with
  | nil =>
    constructor
    · intro h; simp [firstMatchingPattern] at h
    · rintro ⟨pre, p, post, hdec, -, -⟩
      exact absurd hdec (by simp)
  | cons p ps ih =>
    constructor
    · intro h
      rw [firstMatchingPattern] at h
      cases hp : strptime s p with
      | some d2 =>
        rw [hp] at h
        refine ⟨[], p, ps, rfl, ?_, by simp⟩
        cases h
        exact hp
      | none =>
        rw [hp] at h
        obtain ⟨pre, p2, post, hdec, hp2, hpre⟩ := ih.mp h
        refine ⟨p :: pre, p2, post, by rw [hdec, List.cons_append], hp2, ?_⟩
        intro q hq
        rcases List.mem_cons.mp hq with rfl | hq2
        · exact hp
        · exact hpre q hq2
    · rintro ⟨pre, p2, post, hdec, hp2, hpre⟩
      cases pre with
      | nil =>
        obtain ⟨rfl, rfl⟩ : p = p2 ∧ ps = post := by
          constructor <;> [exact (List.cons.injEq .. ▸ hdec).1 ; skip]
          exact (List.cons.injEq .. ▸ hdec).2
        rw [firstMatchingPattern, hp2]
      | cons q pre2 =>
        have hq : p = q ∧ ps = pre2 ++ p2 :: post := by
          rw [List.cons_append] at hdec
          exact ⟨(List.cons.injEq .. ▸ hdec).1, (List.cons.injEq .. ▸ hdec).2⟩
        rw [firstMatchingPattern, hq.1, hpre q (by simp)]
        exact ih.mpr ⟨pre2, p2, post, hq.2, hp2, fun r hr => hpre r (by simp [hr])⟩

theorem firstMatchingPattern_error_iff (s : String) :
    ∀ ps : List String, (∃ e, firstMatchingPattern s ps = .error e) ↔
      ∀ p ∈ ps, strptime s p = none := by
  intro ps
  induction ps with
  | nil => simp [firstMatchingPattern]
  | cons p ps ih =>
    cases hp : strptime s p with
    | some d =>
      simp only [firstMatchingPattern, hp]
      constructor
      · rintro ⟨e, he⟩; cases he
      · intro h
        exact absurd hp (by simp [h p (by simp)])
    | none =>
      simp only [firstMatchingPattern, hp]
      constructor
      · intro h
        intro q hq
        rcases List.mem_cons.mp hq with rfl | hq2
        · exact hp
        · exact (ih.mp h) q hq2
      · intro h
        exact ih.mpr (fun q hq => h q (by simp [hq]))

/-- Claim C5: `parse_date` first replaces every space with `'0'` and
every apostrophe with `'/'`, then tries the fixed ordered pattern lists —
day-first, month-first and year-first groups, each with numeric and
month-name forms — where `day_first` only swaps the relative order of
the day-first and month-first groups (the pattern multiset is
unchanged); the first pattern that parses wins, and when none matches a
`ValueError` is raised. -/
theorem claim_C5_parse_date :
    (∀ s, normalizeDateString s = String.mk (s.data.map substDateChar)) ∧
    date_patterns true = day_first_patterns ++ month_first_patterns ++ year_first_patterns ∧
    date_patterns false = month_first_patterns ++ day_first_patterns ++ year_first_patterns ∧
    (∀ df, (date_patterns df).Perm (date_patterns (!df))) ∧
    (∀ s df d, parse_date s df = .ok d ↔
      ∃ pre p post, date_patterns df = pre ++ p :: post ∧
        strptime (normalizeDateString s) p = some d ∧
        ∀ q ∈ pre, strptime (normalizeDateString s) q = none) ∧
    (∀ s df, (∃ e, parse_date s df = .error e) ↔
      ∀ p ∈ date_patterns df, strptime (normalizeDateString s) p = none) := by
  refine ⟨?_, rfl, rfl, ?_, ?_, ?_⟩
  · intro s
    have hrw : normalizeDateString s =
        String.mk ((s.data.map (fun c => if c = ' ' then '0' else c)).map
          (fun c => if c = '\'' then '/' else c)) := rfl
    rw [hrw, List.map_map]
    congr 1
    apply List.map_congr_left
    intro c _
    by_cases h1 : c = ' '
    · subst h1; decide
    · by_cases h2 : c = '\''
      · subst h2; decide
      · simp [Function.comp, substDateChar, h1, h2]
  · intro df; cases df <;> decide
  · intro s df d
    exact firstMatchingPattern_ok_iff (normalizeDateString s) d (date_patterns df)
  · intro s df
    exact firstMatchingPattern_error_iff (normalizeDateString s) (date_patterns df)

/-- Claim C8: inserting the chains built from
`"Plant:Tree:Oak:Oak Leaf"` and `"Plant:Tree:Birch:Birch Leaf"` into an
empty container yields exactly one root, named `Plant`, in whose tree
`Oak` and `Birch` are both children of the same `Tree` node. -/
theorem claim_C8_container_single_root :
    c8Container = some [.mk "Plant" "Plant" [.mk "Tree" "Plant:Tree"
      [.mk "Oak" "Plant:Tree:Oak" [.mk "Oak Leaf" "Plant:Tree:Oak:Oak Leaf" []],
       .mk "Birch" "Plant:Tree:Birch" [.mk "Birch Leaf" "Plant:Tree:Birch:Birch Leaf" []]]]] ∧
    c8TreeChildren = some ["Oak", "Birch"] :=
  ⟨rfl, rfl⟩

/-! ### Claim C2: the hierarchy invariant

The invariant `invb` (root hierarchy = root name; every child's
hierarchy = parent hierarchy ++ ":" ++ child name) is preserved by
`add_child`, by both trees `remove_child` returns, and by `merge`.  The
working precondition is `namesOKb` — every node has a non-empty name —
which makes every stored hierarchy truthy, so `childHier` always takes
its concatenating branch. -/

theorem strTruthy_append_colon (a b : String) : strTruthy (a ++ ":" ++ b) = true := by
  have hd : (a ++ ":" ++ b).data = a.data ++ ':' :: b.data := by
    simp [String.data_append]
  unfold strTruthy
  rw [hd]
  cases a.data <;> rfl

theorem strTruthy_childHier (h n : String) (hh : strTruthy h = true) :
    childHier h n = h ++ ":" ++ n := by
  simp [childHier, hh]

theorem refreshWith_name (h : String) (c : Cat) : (refreshWith h c).name = c.name := by
  cases c <;> rfl

theorem refreshWith_hier (h : String) (c : Cat) : (refreshWith h c).hierarchy = h := by
  cases c <;> rfl

theorem refreshHierarchy_name (c : Cat) : (refreshHierarchy c).name = c.name := by
  cases c <;> rfl

theorem refreshHierarchy_hier (c : Cat) : (refreshHierarchy c).hierarchy = c.hierarchy := by
  cases c <;> rfl

theorem namesOKb_parts (c : Cat) (h : namesOKb c = true) :
    strTruthy c.name = true ∧ namesOKL c.children = true := by
  cases c with
  | mk n h0 cs =>
    simp only [namesOKb, Bool.and_eq_true] at h
    exact ⟨h.1, h.2⟩

theorem pairsOKb_parts (c : Cat) (h : pairsOKb c = true) :
    kidsOKb c.hierarchy c.children = true := by
  cases c with
  | mk n h0 cs => exact h

theorem invb_parts (c : Cat) (h : invb c = true) :
    c.hierarchy = c.name ∧ pairsOKb c = true := by
  simp only [invb, Bool.and_eq_true, beq_iff_eq] at h
  exact h

theorem namesOKL_iff (cs : List Cat) :
    namesOKL cs = true ↔ ∀ c ∈ cs, namesOKb c = true := by
  induction cs with
  | nil => simp [namesOKL]
  | cons c cs ih => simp [namesOKL, Bool.and_eq_true, ih]

theorem namesOKL_append (a b : List Cat) :
    namesOKL (a ++ b) = (namesOKL a && namesOKL b) := by
  induction a with
  | nil => simp [namesOKL]
  | cons c a ih => simp [namesOKL, ih, Bool.and_assoc]

theorem namesOKL_filter (p : Cat → Bool) (cs : List Cat) (h : namesOKL cs = true) :
    namesOKL (cs.filter p) = true := by
  rw [namesOKL_iff] at h ⊢
  intro c hc
  exact h c (List.mem_filter.mp hc).1

theorem removeFirstBeq_subset (x c : Cat) (cs : List Cat)
    (h : c ∈ removeFirstBeq x cs) : c ∈ cs := by
  induction cs with
  | nil => simpa [removeFirstBeq] using h
  | cons d ds ih =>
    rw [removeFirstBeq] at h
    split at h
    · exact List.mem_cons_of_mem _ h
    · rcases List.mem_cons.mp h with h1 | h1
      · exact h1 ▸ List.mem_cons_self _ _
      · exact List.mem_cons_of_mem _ (ih h1)

theorem namesOKL_removeFirstBeq (x : Cat) (cs : List Cat) (h : namesOKL cs = true) :
    namesOKL (removeFirstBeq x cs) = true := by
  rw [namesOKL_iff] at h ⊢
  exact fun c hc => h c (removeFirstBeq_subset x c cs hc)

mutual

theorem namesOK_refreshWith (h : String) (c : Cat) (hn : namesOKb c = true) :
    namesOKb (refreshWith h c) = true := by
  cases c with
  | mk n h0 cs =>
    simp only [namesOKb, Bool.and_eq_true] at hn
    simp only [refreshWith, namesOKb, Bool.and_eq_true]
    exact ⟨hn.1, namesOK_refreshKids h cs hn.2⟩

theorem namesOK_refreshKids (h : String) (cs : List Cat) (hn : namesOKL cs = true) :
    namesOKL (refreshKids h cs) = true := by
  cases cs with
  | nil => rfl
  | cons c cs =>
    simp only [namesOKL, Bool.and_eq_true] at hn
    simp only [refreshKids, namesOKL, Bool.and_eq_true]
    exact ⟨namesOK_refreshWith (childHier h c.name) c hn.1, namesOK_refreshKids h cs hn.2⟩

end

mutual

theorem pairsOK_refreshWith (h : String) (c : Cat) (hn : namesOKb c = true)
    (hh : strTruthy h = true) : pairsOKb (refreshWith h c) = true := by
  cases c with
  | mk n h0 cs =>
    simp only [namesOKb, Bool.and_eq_true] at hn
    simp only [refreshWith, pairsOKb]
    exact kidsOK_refreshKids h cs hn.2 hh

theorem kidsOK_refreshKids (h : String) (cs : List Cat) (hn : namesOKL cs = true)
    (hh : strTruthy h = true) : kidsOKb h (refreshKids h cs) = true := by
  cases cs with
  | nil => rfl
  | cons c cs =>
    simp only [namesOKL, Bool.and_eq_true] at hn
    simp only [refreshKids, kidsOKb, Bool.and_eq_true]
    refine ⟨⟨?_, ?_⟩, kidsOK_refreshKids h cs hn.2 hh⟩
    · rw [refreshWith_hier, refreshWith_name, strTruthy_childHier h c.name hh]
      exact beq_self_eq_true _
    · exact pairsOK_refreshWith (childHier h c.name) c hn.1
        (by rw [strTruthy_childHier h c.name hh]; exact strTruthy_append_colon h c.name)

end

theorem pairsOK_refreshHierarchy (c : Cat) (hn : namesOKL c.children = true)
    (hh : strTruthy c.hierarchy = true) : pairsOKb (refreshHierarchy c) = true := by
  cases c with
  | mk n h cs =>
    simp only [Cat.children] at hn
    simp only [Cat.hierarchy] at hh
    simp only [refreshHierarchy, pairsOKb]
    exact kidsOK_refreshKids h cs hn hh

theorem namesOK_refreshHierarchy (c : Cat) (hn : namesOKb c = true) :
    namesOKb (refreshHierarchy c) = true := by
  cases c with
  | mk n h cs =>
    simp only [namesOKb, Bool.and_eq_true] at hn
    simp only [refreshHierarchy, namesOKb, Bool.and_eq_true]
    exact ⟨hn.1, namesOK_refreshKids h cs hn.2⟩

theorem add_child_name (p c : Cat) : (add_child p c).name = p.name := rfl

theorem add_child_hier (p c : Cat) : (add_child p c).hierarchy = p.hierarchy := rfl

theorem pairsOK_add_child (p c : Cat) (hn : namesOKL p.children = true)
    (hc : namesOKb c = true) (hh : strTruthy p.hierarchy = true) :
    pairsOKb (add_child p c) = true := by
  cases p with
  | mk pn ph pcs =>
    simp only [Cat.children] at hn
    simp only [Cat.hierarchy] at hh
    simp only [add_child, Cat.name, Cat.hierarchy, Cat.children]
    apply pairsOK_refreshHierarchy
    · simp only [Cat.children]
      rw [namesOKL_append]
      simp [hn, namesOKL, hc]
    · exact hh

theorem namesOK_add_child (p c : Cat) (hn : namesOKb p = true) (hc : namesOKb c = true) :
    namesOKb (add_child p c) = true := by
  have hp := namesOKb_parts p hn
  unfold add_child
  apply namesOK_refreshHierarchy
  simp only [namesOKb, Bool.and_eq_true]
  refine ⟨hp.1, ?_⟩
  rw [namesOKL_append]
  simp [hp.2, namesOKL, hc]

theorem invb_add_child (p c : Cat) (hp : namesOKb p = true) (hc : namesOKb c = true)
    (hi : invb p = true) : invb (add_child p c) = true := by
  have hparts := namesOKb_parts p hp
  have hinv := invb_parts p hi
  simp only [invb, Bool.and_eq_true, beq_iff_eq]
  refine ⟨?_, ?_⟩
  · rw [add_child_hier, add_child_name]; exact hinv.1
  · exact pairsOK_add_child p c hparts.2 hc (by rw [hinv.1]; exact hparts.1)

mutual

theorem findRemoveIn_spec (n : String) (k : Bool) (c : Cat)
    (hn : namesOKb c = true) (hh : strTruthy c.hierarchy = true)
    (hp : pairsOKb c = true) (t r : Cat)
    (he : findRemoveIn n k c = some (t, r)) :
    (t.name = c.name ∧ t.hierarchy = c.hierarchy ∧ pairsOKb t = true ∧
      namesOKb t = true) ∧ invb r = true ∧ namesOKb r = true := by
  cases c with
  | mk nm h cs =>
    simp only [namesOKb, Bool.and_eq_true] at hn
    simp only [Cat.hierarchy] at hh
    simp only [pairsOKb] at hp
    simp only [findRemoveIn] at he
    split at he
    next r0 heq =>
      have hspec := findRemoveL_spec n k cs h hn.2 hh hp (RemRes.direct r0) heq
      have hr0 : namesOKb r0 = true := hspec.1 r0 rfl
      have hr0p := namesOKb_parts r0 hr0
      have hgrand : namesOKL (if k then r0.children else []) = true := by
        cases k
        · rfl
        · exact hr0p.2
      have hkeep : namesOKL (if k then [] else r0.children) = true := by
        cases k
        · exact hr0p.2
        · rfl
      have hnew : namesOKL (cs.filter (fun x => !Cat.beq x r0) ++
          (if k then r0.children else [])) = true := by
        rw [namesOKL_append]
        simp only [Bool.and_eq_true]
        exact ⟨namesOKL_filter _ cs hn.2, hgrand⟩
      simp only [Option.some.injEq, Prod.mk.injEq] at he
      obtain ⟨rfl, rfl⟩ := he
      refine ⟨⟨?_, ?_, ?_, ?_⟩, ?_, ?_⟩
      · simp [excise, refreshHierarchy, Cat.name]
      · simp [excise, refreshHierarchy, Cat.hierarchy]
      · simp only [excise]
        apply pairsOK_refreshHierarchy
        · exact hnew
        · exact hh
      · simp only [excise]
        apply namesOK_refreshHierarchy
        simp only [namesOKb, Bool.and_eq_true]
        exact ⟨hn.1, hnew⟩
      · simp only [detachRemoved, invb, Bool.and_eq_true, beq_iff_eq]
        refine ⟨?_, ?_⟩
        · rw [refreshHierarchy_hier, refreshHierarchy_name]; rfl
        · apply pairsOK_refreshHierarchy
          · exact hkeep
          · exact hr0p.1
      · simp only [detachRemoved]
        apply namesOK_refreshHierarchy
        simp only [namesOKb, Bool.and_eq_true]
        exact ⟨hr0p.1, hkeep⟩
    next cs' r0 heq =>
      have hspec := findRemoveL_spec n k cs h hn.2 hh hp (RemRes.deep cs' r0) heq
      have hdeep := hspec.2 cs' r0 rfl
      simp only [Option.some.injEq, Prod.mk.injEq] at he
      obtain ⟨rfl, rfl⟩ := he
      refine ⟨⟨rfl, rfl, ?_, ?_⟩, hdeep.2⟩
      · exact hdeep.1.1
      · simp only [namesOKb, Bool.and_eq_true]
        exact ⟨hn.1, hdeep.1.2⟩
    next heq => simp at he

theorem findRemoveL_spec (n : String) (k : Bool) (cs : List Cat) (h : String)
    (hn : namesOKL cs = true) (hh : strTruthy h = true)
    (hk : kidsOKb h cs = true) (res : RemRes)
    (he : findRemoveL n k cs = some res) :
    (∀ r, res = RemRes.direct r → namesOKb r = true) ∧
    (∀ cs' r, res = RemRes.deep cs' r →
      (kidsOKb h cs' = true ∧ namesOKL cs' = true) ∧
      invb r = true ∧ namesOKb r = true) := by
  cases cs with
  | nil => simp [findRemoveL] at he
  | cons c rest =>
    simp only [namesOKL, Bool.and_eq_true] at hn
    simp only [kidsOKb, Bool.and_eq_true] at hk
    simp only [findRemoveL] at he
    split at he
    next r0 heq =>
      have hspec := findRemoveL_spec n k rest h hn.2 hh hk.2 (RemRes.direct r0) heq
      simp only [Option.some.injEq] at he
      subst he
      refine ⟨?_, ?_⟩
      · intro r hr
        cases hr
        exact hspec.1 r0 rfl
      · intro cs' r hr
        simp at hr
    next cs0 r0 heq =>
      have hspec := findRemoveL_spec n k rest h hn.2 hh hk.2 (RemRes.deep cs0 r0) heq
      have hdeep := hspec.2 cs0 r0 rfl
      simp only [Option.some.injEq] at he
      subst he
      refine ⟨?_, ?_⟩
      · intro r hr
        simp at hr
      · intro cs' r hr
        cases hr
        refine ⟨⟨?_, ?_⟩, hdeep.2⟩
        · simp only [kidsOKb, Bool.and_eq_true]
          exact ⟨⟨hk.1.1, hk.1.2⟩, hdeep.1.1⟩
        · simp only [namesOKL, Bool.and_eq_true]
          exact ⟨hn.1, hdeep.1.2⟩
    next heq =>
      split at he
      next hname =>
        simp only [Option.some.injEq] at he
        subst he
        refine ⟨?_, ?_⟩
        · intro r hr
          cases hr
          exact hn.1
        · intro cs' r hr
          simp at hr
      next hname =>
        split at he
        next c' r0 heq2 =>
          have hch : c.hierarchy = h ++ ":" ++ c.name := eq_of_beq hk.1.1
          have hcht : strTruthy c.hierarchy = true := by
            rw [hch]; exact strTruthy_append_colon h c.name
          have hspec := findRemoveIn_spec n k c hn.1 hcht hk.1.2 c' r0 heq2
          simp only [Option.some.injEq] at he
          subst he
          refine ⟨?_, ?_⟩
          · intro r hr
            simp at hr
          · intro cs' r hr
            cases hr
            refine ⟨⟨?_, ?_⟩, hspec.2⟩
            · simp only [kidsOKb, Bool.and_eq_true]
              refine ⟨⟨?_, hspec.1.2.2.1⟩, hk.2⟩
              rw [beq_iff_eq, hspec.1.2.1, hspec.1.1]
              exact hch
            · simp only [namesOKL, Bool.and_eq_true]
              exact ⟨hspec.1.2.2.2, hn.2⟩
        next heq2 =>
          simp at he

end

theorem invb_remove_child (p : Cat) (n : String) (k : Bool) (t r : Cat)
    (hn : namesOKb p = true) (hi : invb p = true)
    (he : remove_child p n k = some (t, r)) :
    invb t = true ∧ invb r = true := by
  have hparts := namesOKb_parts p hn
  have hinv := invb_parts p hi
  simp only [remove_child] at he
  split at he
  next hname =>
    have key : invb (refreshHierarchy (Cat.mk p.name p.name p.children)) = true := by
      simp only [invb, Bool.and_eq_true, beq_iff_eq]
      refine ⟨?_, ?_⟩
      · rw [refreshHierarchy_hier, refreshHierarchy_name]; rfl
      · exact pairsOK_refreshHierarchy (Cat.mk p.name p.name p.children) hparts.2 hparts.1
    simp only [Option.some.injEq, Prod.mk.injEq] at he
    obtain ⟨rfl, rfl⟩ := he
    exact ⟨key, key⟩
  next hname =>
    have hh : strTruthy p.hierarchy = true := by rw [hinv.1]; exact hparts.1
    have hspec := findRemoveIn_spec n k p hn hh hinv.2 t r he
    refine ⟨?_, hspec.2.1⟩
    simp only [invb, Bool.and_eq_true, beq_iff_eq]
    exact ⟨by rw [hspec.1.2.1, hspec.1.1]; exact hinv.1, hspec.1.2.2.1⟩

theorem merge_specAux : ∀ fuel : ℕ,
    (∀ self other t, namesOKb self = true → strTruthy self.hierarchy = true →
      pairsOKb self = true → namesOKb other = true →
      mergeF fuel self other = MRes.ok t →
      t.name = self.name ∧ t.hierarchy = self.hierarchy ∧
        pairsOKb t = true ∧ namesOKb t = true) ∧
    (∀ cs other h cs', namesOKL cs = true → strTruthy h = true →
      kidsOKb h cs = true → namesOKb other = true →
      mergeChildF fuel cs other = FResL.found cs' →
      kidsOKb h cs' = true ∧ namesOKL cs' = true) ∧
    (∀ self ocs i t, namesOKb self = true → strTruthy self.hierarchy = true →
      pairsOKb self = true → namesOKL ocs = true →
      mergeEqF fuel self ocs i = some t →
      t.name = self.name ∧ t.hierarchy = self.hierarchy ∧
        pairsOKb t = true ∧ namesOKb t = true) ∧
    (∀ self oc t, namesOKb self = true → strTruthy self.hierarchy = true →
      pairsOKb self = true → namesOKb oc = true →
      mergeAtF fuel self oc = FRes.found t →
      t.name = self.name ∧ t.hierarchy = self.hierarchy ∧
        pairsOKb t = true ∧ namesOKb t = true) ∧
    (∀ cs oc h cs', namesOKL cs = true → strTruthy h = true →
      kidsOKb h cs = true → namesOKb oc = true →
      mergeAtLF fuel cs oc = FResL.found cs' →
      kidsOKb h cs' = true ∧ namesOKL cs' = true) := by
  intro fuel
  induction fuel with
  | zero =>
    refine ⟨?_, ?_, ?_, ?_, ?_⟩
    · intro self other t _ _ _ _ he; simp [mergeF] at he
    · intro cs other h cs' _ _ _ _ he; simp [mergeChildF] at he
    · intro self ocs i t _ _ _ _ he; simp [mergeEqF] at he
    · intro self oc t _ _ _ _ he; simp [mergeAtF] at he
    · intro cs oc h cs' _ _ _ _ he; simp [mergeAtLF] at he
  | succ fuel ih =>
    obtain ⟨ihF, ihC, ihE, ihA, ihL⟩ := ih
    refine ⟨?_, ?_, ?_, ?_, ?_⟩
    · intro self other t hn hh hp ho he
      simp only [mergeF] at he
      split at he
      · split at he
        · simp at he
        · simp at he
        next cs' heq =>
          have h2 := ihC self.children other self.hierarchy cs'
            (namesOKb_parts self hn).2 hh (pairsOKb_parts self hp) ho heq
          simp only [MRes.ok.injEq] at he
          subst he
          refine ⟨rfl, rfl, h2.1, ?_⟩
          simp only [namesOKb, Bool.and_eq_true]
          exact ⟨(namesOKb_parts self hn).1, h2.2⟩
      · split at he
        · simp at he
        next t' heq =>
          have h2 := ihE self other.children 0 t' hn hh hp (namesOKb_parts other ho).2 heq
          simp only [MRes.ok.injEq] at he
          subst he
          exact h2
    · intro cs other h cs' hn hh hk ho he
      cases cs with
      | nil => simp [mergeChildF] at he
      | cons c rest =>
        simp only [namesOKL, Bool.and_eq_true] at hn
        simp only [kidsOKb, Bool.and_eq_true] at hk
        simp only [mergeChildF] at he
        split at he
        · simp at he
        next c' heq =>
          have hch : c.hierarchy = h ++ ":" ++ c.name := eq_of_beq hk.1.1
          have h1 := ihF c other c' hn.1
            (by rw [hch]; exact strTruthy_append_colon h c.name) hk.1.2 ho heq
          simp only [FResL.found.injEq] at he
          subst he
          refine ⟨?_, ?_⟩
          · simp only [kidsOKb, Bool.and_eq_true]
            refine ⟨⟨?_, h1.2.2.1⟩, hk.2⟩
            rw [beq_iff_eq, h1.2.1, h1.1]
            exact hch
          · simp only [namesOKL, Bool.and_eq_true]
            exact ⟨h1.2.2.2, hn.2⟩
        next heq =>
          split at he
          · simp at he
          · simp at he
          next cs0 heq2 =>
            have h1 := ihC rest other h cs0 hn.2 hh hk.2 ho heq2
            simp only [FResL.found.injEq] at he
            subst he
            refine ⟨?_, ?_⟩
            · simp only [kidsOKb, Bool.and_eq_true]
              exact ⟨⟨hk.1.1, hk.1.2⟩, h1.1⟩
            · simp only [namesOKL, Bool.and_eq_true]
              exact ⟨hn.1, h1.2⟩
    · intro self ocs i t hn hh hp ho he
      simp only [mergeEqF] at he
      split at he
      next hlt =>
        split at he
        · simp at he
        next self' heq =>
          have hoc : namesOKb (ocs.get ⟨i, hlt⟩) = true :=
            (namesOKL_iff ocs).mp ho _ (by apply List.get_mem)
          have h4 := ihA self (ocs.get ⟨i, hlt⟩) self' hn hh hp hoc heq
          have h3 := ihE self' ocs (i + 1) t h4.2.2.2
            (by rw [h4.2.1]; exact hh) h4.2.2.1 ho he
          exact ⟨h3.1.trans h4.1, h3.2.1.trans h4.2.1, h3.2.2⟩
        next heq =>
          have hoc : namesOKb (ocs.get ⟨i, hlt⟩) = true :=
            (namesOKL_iff ocs).mp ho _ (by apply List.get_mem)
          have hsp := namesOKb_parts self hn
          have h3 := ihE (add_child self (ocs.get ⟨i, hlt⟩))
            (removeFirstBeq (ocs.get ⟨i, hlt⟩) ocs) (i + 1) t
            (namesOK_add_child self _ hn hoc)
            (by rw [add_child_hier]; exact hh)
            (pairsOK_add_child self _ hsp.2 hoc hh)
            (namesOKL_removeFirstBeq _ ocs ho) he
          exact ⟨h3.1.trans (add_child_name self _), h3.2.1.trans (add_child_hier self _),
            h3.2.2⟩
      next hge =>
        simp only [Option.some.injEq] at he
        subst he
        exact ⟨rfl, rfl, hp, hn⟩
    · intro self oc t hn hh hp ho he
      simp only [mergeAtF] at he
      split at he
      next hname =>
        split at he
        · simp at he
        next t' heq =>
          have h2 := ihE self oc.children 0 t' hn hh hp (namesOKb_parts oc ho).2 heq
          simp only [FRes.found.injEq] at he
          subst he
          exact h2
      next hname =>
        split at he
        · simp at he
        · simp at he
        next cs' heq =>
          have h2 := ihL self.children oc self.hierarchy cs'
            (namesOKb_parts self hn).2 hh (pairsOKb_parts self hp) ho heq
          simp only [FRes.found.injEq] at he
          subst he
          refine ⟨rfl, rfl, h2.1, ?_⟩
          simp only [namesOKb, Bool.and_eq_true]
          exact ⟨(namesOKb_parts self hn).1, h2.2⟩
    · intro cs oc h cs' hn hh hk ho he
      cases cs with
      | nil => simp [mergeAtLF] at he
      | cons c rest =>
        simp only [namesOKL, Bool.and_eq_true] at hn
        simp only [kidsOKb, Bool.and_eq_true] at hk
        simp only [mergeAtLF] at he
        split at he
        · simp at he
        next cs0 heq =>
          have h1 := ihL rest oc h cs0 hn.2 hh hk.2 ho heq
          simp only [FResL.found.injEq] at he
          subst he
          refine ⟨?_, ?_⟩
          · simp only [kidsOKb, Bool.and_eq_true]
            exact ⟨⟨hk.1.1, hk.1.2⟩, h1.1⟩
          · simp only [namesOKL, Bool.and_eq_true]
            exact ⟨hn.1, h1.2⟩
        next heq =>
          split at he
          · simp at he
          next c' heq2 =>
            have hch : c.hierarchy = h ++ ":" ++ c.name := eq_of_beq hk.1.1
            have h1 := ihA c oc c' hn.1
              (by rw [hch]; exact strTruthy_append_colon h c.name) hk.1.2 ho heq2
            simp only [FResL.found.injEq] at he
            subst he
            refine ⟨?_, ?_⟩
            · simp only [kidsOKb, Bool.and_eq_true]
              refine ⟨⟨?_, h1.2.2.1⟩, hk.2⟩
              rw [beq_iff_eq, h1.2.1, h1.1]
              exact hch
            · simp only [namesOKL, Bool.and_eq_true]
              exact ⟨h1.2.2.2, hn.2⟩
          · simp at he

/-- Claim C2: the hierarchy invariant — every child's stored hierarchy
equals its parent's hierarchy ++ ":" ++ the child's name, and a
parentless root's hierarchy equals its name (`invb`) — holds after every
`add_child`, after `remove_child` (for both the pruned tree and the
detached subtree), and after every successful `merge`, whenever the
input trees have non-empty node names and satisfied the invariant
before the operation. -/
theorem claim_C2_hierarchy_invariant :
    (∀ p c, namesOKb p = true → namesOKb c = true → invb p = true →
      invb (add_child p c) = true) ∧
    (∀ p n k t r, namesOKb p = true → invb p = true →
      remove_child p n k = some (t, r) → invb t = true ∧ invb r = true) ∧
    (∀ fuel self other t, namesOKb self = true → invb self = true →
      namesOKb other = true → invb other = true →
      mergeF fuel self other = MRes.ok t → invb t = true) := by
  refine ⟨invb_add_child, invb_remove_child, ?_⟩
  intro fuel self other t hns his hno hio he
  have hparts := namesOKb_parts self hns
  have hinv := invb_parts self his
  have hh : strTruthy self.hierarchy = true := by rw [hinv.1]; exact hparts.1
  have h1 := (merge_specAux fuel).1 self other t hns hh hinv.2 hno he
  simp only [invb, Bool.and_eq_true, beq_iff_eq]
  exact ⟨by rw [h1.2.1, h1.1]; exact hinv.1, h1.2.2.1⟩

/-- Witness for claim C2: the invariant after appending a fresh child to
a one-node tree, after removing the only child of a two-node tree (both
returned trees), and after merging two same-named roots (adopting a
child), with every hypothesis checked by evaluation. -/
theorem claim_C2_hierarchy_invariant_witness :
    invb (add_child (Cat.mk "Food" "Food" []) (Cat.mk "Meat" "Meat" [])) = true ∧
    (invb (Cat.mk "Food" "Food" []) = true ∧ invb (Cat.mk "Meat" "Meat" []) = true) ∧
    invb (Cat.mk "Food" "Food" [Cat.mk "Veg" "Food:Veg" []]) = true :=
  ⟨claim_C2_hierarchy_invariant.1 (Cat.mk "Food" "Food" []) (Cat.mk "Meat" "Meat" [])
      (by decide) (by decide) (by decide),
   claim_C2_hierarchy_invariant.2.1 (Cat.mk "Food" "Food" [Cat.mk "Meat" "Food:Meat" []])
      "Meat" false (Cat.mk "Food" "Food" []) (Cat.mk "Meat" "Meat" [])
      (by decide) (by decide) rfl,
   claim_C2_hierarchy_invariant.2.2 4 (Cat.mk "Food" "Food" [])
      (Cat.mk "Food" "Food" [Cat.mk "Veg" "Food:Veg" []])
      (Cat.mk "Food" "Food" [Cat.mk "Veg" "Food:Veg" []])
      (by decide) (by decide) (by decide) (by decide) rfl⟩

end Quiffen
